import Mathlib

/-!
# DN master build driver (`src/master/master_main_runner.cc`)

A shallow embedding of `master::MasterMainRunner`: its fields become a record,
its member functions become functions on that record.

Conventions of the embedding

* `std::map` is an association list kept in ascending key order (`OrdMap`);
  iteration over the map is iteration over the list.
* C++ `int` fields are `Int`.  Signed overflow is undefined in C++, so the
  embedding describes the executions in which no signed overflow happens.
  `static_cast<int>(size_t)` wraps modulo `2^32` and is modelled as such.
* `DCHECK` comes from `base/logging.h`, which is outside the repository: it
  aborts when DCHECKs are compiled in and is empty otherwise.  The flag
  `dcheck_is_on` of `Env` selects the flavour; a handler that fails a DCHECK
  or runs into undefined behaviour returns `Except.error`.
* `NinjaThread::PostTask` and calls into the graph engine are recorded, in
  program order, in the field `posted`.
* Results of the operating system and of the network (spawning a process,
  creating a directory, the MD5 of a fetched file) are arguments.
-/

namespace master

/-! ## `std::map` as an ordered association list -/

/-- An ordered association list: the contents of a `std::map`, in iteration order. -/
abbrev OrdMap (κ : Type) (α : Type) := List (κ × α)

namespace OrdMap

variable {κ α : Type}

/-- The lookup `m.find(k)`: `none` stands for `m.end()`. -/
def find [DecidableEq κ] : OrdMap κ α → κ → Option α
  | [], _ => none
  | (k', v) :: rest, k => if k' = k then some v else find rest k

/-- The assignment `m[k] = v`: replaces the value of an existing key, otherwise
inserts the pair at its place in ascending key order. -/
def insert [DecidableEq κ] [LT κ] [DecidableRel (fun (a b : κ) => a < b)] :
    OrdMap κ α → κ → α → OrdMap κ α
  | [], k, v => [(k, v)]
  | (k', v') :: rest, k, v =>
    if k' = k then (k, v) :: rest
    else if k < k' then (k, v) :: (k', v') :: rest
    else (k', v') :: insert rest k v

/-- The insertion `m.insert(make_pair(k, v))`: keeps an existing binding of `k`. -/
def insertNew [DecidableEq κ] [LT κ] [DecidableRel (fun (a b : κ) => a < b)]
    (m : OrdMap κ α) (k : κ) (v : α) : OrdMap κ α :=
  match find m k with
  | some _ => m
  | none => insert m k v

/-- The removal `m.erase(k)`. -/
def erase [DecidableEq κ] (m : OrdMap κ α) (k : κ) : OrdMap κ α :=
  m.filter (fun kv => decide (kv.1 ≠ k))

/-- The update `it->second = f(it->second)` for `it = m.find(k)`, when `it != m.end()`. -/
def modify [DecidableEq κ] (m : OrdMap κ α) (k : κ) (f : α → α) : OrdMap κ α :=
  m.map (fun kv => if kv.1 = k then (kv.1, f kv.2) else kv)

/-- The test `m.empty()`. -/
def empty (m : OrdMap κ α) : Bool := m.isEmpty

/-- The count `m.size()`. -/
def size (m : OrdMap κ α) : Nat := m.length

end OrdMap

/-! ## Data taken from the graph engine and from the RPC layer -/

/-- The exit status of a command (`ExitStatus` of the graph engine). -/
inductive ExitStatus where
  | ExitSuccess
  | ExitFailure
  | ExitInterrupted
  deriving DecidableEq, Repr

/-- The attributes of an `Edge` the driver reads.  `outputs_` holds the path of
each output node, in declared order; `rspfile` is `GetUnescapedRspfile()`,
`rspfile_content` is `GetBinding("rspfile_content")`, `command` is
`EvaluateCommand()`. -/
structure Edge where
  id_ : Int
  outputs_ : List String
  rspfile : String
  rspfile_content : String
  command : String
  use_console : Bool
  deriving DecidableEq, Repr

/-- The result record `CommandRunner::Result`. -/
structure Result where
  edge : Edge
  status : ExitStatus
  output : String
  deriving DecidableEq, Repr

/-- The test `result.success()`. -/
def Result.success (r : Result) : Bool := decide (r.status = ExitStatus.ExitSuccess)

/-- The record `SlaveInfo` kept per registered slave.  `load_average` is a
`double` that the driver only stores. -/
structure SlaveInfo where
  ip : String
  operating_system_name : String
  operating_system_architecture : String
  number_of_processors : Int
  load_average : Rat
  amount_of_running_commands : Int
  amount_of_available_physical_memory : Int
  deriving DecidableEq, Repr

/-- A value-initialised `SlaveInfo`, as `slave_info_id_map_[k]` creates for a new key. -/
def SlaveInfo.default : SlaveInfo :=
  { ip := "", operating_system_name := "", operating_system_architecture := "",
    number_of_processors := 0, load_average := 0, amount_of_running_commands := 0,
    amount_of_available_physical_memory := 0 }

/-- A local child process: `id` stands for the pointer `Subprocess*`; `status`
and `output` are what `Finish()` and `GetOutput()` return once it has ended. -/
structure Subprocess where
  id : Nat
  command : String
  use_console : Bool
  status : ExitStatus
  output : String
  deriving DecidableEq, Repr

/-- Modelled from the spec: the local executor `SubprocessSet` (section 4.2 of
the spec; the class belongs to the graph engine and is not in the repository).
`running_` holds the spawned subprocesses, `finished_` the queue of ended ones
that have not been collected. -/
structure SubprocessSet where
  running_ : List Subprocess
  finished_ : List Subprocess
  deriving DecidableEq, Repr

/-- A task handed to another thread or a call into the graph engine, as the
driver issues it. -/
inductive Posted where
  /-- Posted to RPC: `MasterRPC::QuitSlave(connection_id, reason)`. -/
  | QuitSlave (connection_id : Int) (reason : String)
  /-- Posted to RPC: `MasterRPC::StartCommandRemotely(...)`. -/
  | StartCommandRemotely (connection_id : Int) (output_paths : List String)
      (rspfile : String) (rspfile_content : String) (command : String) (edge_id : Nat)
  /-- Posted to the blocking pool: `FetchTargetsOnBlockingPool(host, targets, result)`. -/
  | FetchTargetsOnBlockingPool (host : String) (targets : List (String × String))
      (result : Result)
  /-- Posted to MAIN: `OnFetchTargetsDone(result)`. -/
  | OnFetchTargetsDone (result : Result)
  /-- The call `ninja_main()->RunBuild(targets, this)`. -/
  | RunBuild
  /-- The call `ninja_main()->builder()->FinishCommand(&result, &error)`. -/
  | FinishCommand (result : Result)
  deriving DecidableEq, Repr

/-- What lies outside the repository: `base::Hash`, `base::SysInfo`,
`common::GuessParallelism`, and whether `DCHECK` is compiled in. -/
structure Env where
  Hash : String → Nat
  OperatingSystemName : String
  OperatingSystemArchitecture : String
  GuessParallelism : Int
  dcheck_is_on : Bool

/-- Why a handler did not run to its end. -/
inductive Fault where
  /-- A `DCHECK` failed in a build that compiles DCHECKs in. -/
  | dcheck_failed
  /-- The code went on to undefined behaviour (dereferencing `end()`, indexing
  a vector past its size). -/
  | undefined_behaviour
  /-- The step was not offered by the environment in this state. -/
  | not_enabled
  deriving DecidableEq, Repr

/-- The value of `INT_MIN`. -/
def INT_MIN : Int := -2147483648

/-- The value of `UINT_MAX`. -/
def UINT_MAX : Nat := 4294967295

/-- The conversion `static_cast<int>(n)` of a `size_t`: reduction modulo `2^32`
into the range of `int`. -/
def static_cast_int (n : Nat) : Int :=
  ((n : Int) + 2147483648) % 4294967296 - 2147483648

/-- The statement `DCHECK(cond)`. -/
def DCHECK (env : Env) (cond : Bool) : Except Fault Unit :=
  if env.dcheck_is_on && !cond then Except.error Fault.dcheck_failed else Except.ok ()

/-! ## The driver state -/

/-- The fields of `master::MasterMainRunner` (`parallelism` is
`config_.parallelism`), the record of posted tasks, and the counter that names
the next `Subprocess` object. -/
structure MasterMainRunner where
  number_of_slave_processors_ : Int
  max_slave_amount_ : Nat
  is_building_ : Bool
  pending_remote_commands_ : Int
  parallelism : Int
  subprocs_ : SubprocessSet
  subproc_to_edge_ : OrdMap Nat Edge
  outstanding_edges_ : OrdMap Nat Edge
  slave_info_id_map_ : OrdMap Int SlaveInfo
  posted : List Posted
  next_subproc : Nat
  deriving DecidableEq, Repr

namespace MasterMainRunner

/-- The constructor followed by `PostCreateThreads`: `max_slave_amount` is the
parsed value of the switch `--max-slave-amount` when it is given;
`config_parallelism` is the value the constructor of `BuildConfig` leaves in
`config_.parallelism`. -/
def init (max_slave_amount : Option Nat) (config_parallelism : Int) : MasterMainRunner :=
  { number_of_slave_processors_ := 0
    max_slave_amount_ := match max_slave_amount with
      | some n => n
      | none => UINT_MAX
    is_building_ := false
    pending_remote_commands_ := 0
    parallelism := config_parallelism
    subprocs_ := { running_ := [], finished_ := [] }
    subproc_to_edge_ := []
    outstanding_edges_ := []
    slave_info_id_map_ := []
    posted := []
    next_subproc := 0 }

/-- The member `StartBuild`.  The choice of targets from the command line is
left to the graph engine; the call of `RunBuild` is recorded. -/
def StartBuild (env : Env) (s : MasterMainRunner) : MasterMainRunner :=
  if s.is_building_ then s
  else
    { s with
      is_building_ := true
      parallelism := env.GuessParallelism - 1
      pending_remote_commands_ := 0
      posted := s.posted ++ [Posted.RunBuild] }

/-- The member `RemoteCanRunMore`. -/
def RemoteCanRunMore (s : MasterMainRunner) : Bool :=
  if OrdMap.empty s.slave_info_id_map_ then false
  else
    let size := min (static_cast_int (OrdMap.size s.outstanding_edges_))
      s.pending_remote_commands_
    decide (size ≤ s.number_of_slave_processors_)

/-- One pass of the loop of `FindMostAvailableSlave` over a registry entry:
the pair is `(connection_id, max_number_of_available_processors)`.  The
assignment `tmp = max_number_of_available_processors` changes the local `tmp`
only, so the maximum is carried over unchanged. -/
def FindMostAvailableSlave_step (acc : Int × Int) (entry : Int × SlaveInfo) : Int × Int :=
  let tmp := entry.2.number_of_processors - entry.2.amount_of_running_commands
  if tmp > acc.2 then (entry.1, acc.2) else acc

/-- The member `FindMostAvailableSlave`. -/
def FindMostAvailableSlave (s : MasterMainRunner) : Int :=
  (s.slave_info_id_map_.foldl FindMostAvailableSlave_step (INT_MIN, INT_MIN)).1


/-- The update `number_of_slave_processors_ += (number_of_processors * 1.5)`:
the sum is formed in `double`, where it is exact, and converted back to `int`
by truncation towards zero. -/
def add_slave_processors (number_of_slave_processors : Int) (number_of_processors : Int) : Int :=
  Int.tdiv (2 * number_of_slave_processors + 3 * number_of_processors) 2

/-- The static string `kRejectReason` of `OnSlaveSystemInfoAvailable`. -/
def kRejectReason (env : Env) : String :=
  "Different system name or architecture, system info of master: \"" ++
    env.OperatingSystemName ++ ", " ++ env.OperatingSystemArchitecture ++ "\"."

/-- The member `OnSlaveSystemInfoAvailable`. -/
def OnSlaveSystemInfoAvailable (env : Env) (s : MasterMainRunner) (connection_id : Int)
    (info : SlaveInfo) : MasterMainRunner :=
  if (OrdMap.find s.slave_info_id_map_ connection_id).isSome then s
  else if info.operating_system_name ≠ env.OperatingSystemName ∨
      info.operating_system_architecture ≠ env.OperatingSystemArchitecture then
    { s with posted := s.posted ++ [Posted.QuitSlave connection_id (kRejectReason env)] }
  else
    let s1 : MasterMainRunner :=
      { s with
        slave_info_id_map_ := OrdMap.insert s.slave_info_id_map_ connection_id info
        number_of_slave_processors_ :=
          add_slave_processors s.number_of_slave_processors_ info.number_of_processors }
    if OrdMap.size s1.slave_info_id_map_ ≥ s1.max_slave_amount_ then StartBuild env s1 else s1

/-- The member `OnSlaveStatusUpdate`. -/
def OnSlaveStatusUpdate (s : MasterMainRunner) (connection_id : Int) (load_average : Rat)
    (amount_of_running_commands : Int) (amount_of_available_physical_memory : Int) :
    MasterMainRunner :=
  match OrdMap.find s.slave_info_id_map_ connection_id with
  | none => s
  | some _ =>
    { s with
      slave_info_id_map_ := OrdMap.modify s.slave_info_id_map_ connection_id (fun info =>
        { info with
          load_average := load_average
          amount_of_running_commands := amount_of_running_commands
          amount_of_available_physical_memory := amount_of_available_physical_memory }) }

/-- The member `OnSlaveClose`. -/
def OnSlaveClose (env : Env) (s : MasterMainRunner) (connection_id : Int) :
    Except Fault MasterMainRunner := do
  DCHECK env (OrdMap.find s.slave_info_id_map_ connection_id).isSome
  pure { s with slave_info_id_map_ := OrdMap.erase s.slave_info_id_map_ connection_id }

end MasterMainRunner

/-- What the operating system answers while a command is started locally:
whether `base::CreateDirectory` succeeds for the directory of an output path,
whether `WriteFile` succeeds, whether the child process can be spawned. -/
structure LocalOutcome where
  CreateDirectory : String → Bool
  WriteFile : String → String → Bool
  Start : String → Bool → Bool

/-- What one call of `SubprocessSet::DoWork` observes: the subprocesses that
ended, each with its exit status and output, and whether an interrupt came. -/
structure DoWorkOutcome where
  ended : List (Nat × ExitStatus × String)
  interrupted : Bool
  deriving DecidableEq, Repr

namespace SubprocessSet

/-- Modelled from the spec: `Add(command, use_console)` of the local executor,
which yields no subprocess when the operating system rejects the spawn.  The
number `id` names the new `Subprocess` object. -/
def Add (os : LocalOutcome) (ss : SubprocessSet) (id : Nat) (command : String)
    (use_console : Bool) : Option Subprocess × SubprocessSet :=
  if os.Start command use_console then
    let subproc : Subprocess :=
      { id := id, command := command, use_console := use_console,
        status := ExitStatus.ExitFailure, output := "" }
    (some subproc, { ss with running_ := ss.running_ ++ [subproc] })
  else (none, ss)

/-- Modelled from the spec: `DoWork()` of the local executor: the running
subprocesses that ended move to the queue of finished ones. -/
def DoWork (o : DoWorkOutcome) (ss : SubprocessSet) : Bool × SubprocessSet :=
  let done := ss.running_.filterMap (fun p =>
    match OrdMap.find o.ended p.id with
    | some r => some { p with status := r.1, output := r.2 }
    | none => none)
  let still := ss.running_.filter (fun p => (OrdMap.find o.ended p.id).isNone)
  (o.interrupted, { running_ := still, finished_ := ss.finished_ ++ done })

/-- Modelled from the spec: `NextFinished()` of the local executor. -/
def NextFinished (ss : SubprocessSet) : Option Subprocess × SubprocessSet :=
  match ss.finished_ with
  | [] => (none, ss)
  | p :: rest => (some p, { ss with finished_ := rest })

/-- Modelled from the spec: `Clear()` of the local executor, which empties the
subprocess set. -/
def Clear (_ss : SubprocessSet) : SubprocessSet :=
  { running_ := [], finished_ := [] }

end SubprocessSet

/-- How a call of `WaitForCommand` ends: it returns `true` with the result
filled in, it returns `false` after an interrupt, or it is still in its loop
when the recorded observations of `DoWork` are used up. -/
inductive WaitOutcome where
  | returned_true (result : Result)
  | returned_false
  | still_waiting
  deriving DecidableEq, Repr

/-- What `FetchTargetsOnBlockingPool` did: the calls `curl_helper.Get(url, filename)`
in the order issued, and the tasks it posted. -/
structure FetchOutcome where
  gets : List (String × String)
  posted : List Posted
  deriving DecidableEq, Repr

/-- The constant `kHttp`. -/
def kHttp : String := "http://"

namespace MasterMainRunner

/-- The member `StartCommandLocally`. -/
def StartCommandLocally (os : LocalOutcome) (s : MasterMainRunner) (edge : Edge) :
    Bool × MasterMainRunner :=
  if !(edge.outputs_.all os.CreateDirectory) then (false, s)
  else if !(edge.rspfile.isEmpty) && !(os.WriteFile edge.rspfile edge.rspfile_content) then
    (false, s)
  else
    match SubprocessSet.Add os s.subprocs_ s.next_subproc edge.command edge.use_console with
    | (none, _) => (false, s)
    | (some subproc, ss) =>
      (true,
        { s with
          subprocs_ := ss
          next_subproc := s.next_subproc + 1
          subproc_to_edge_ := OrdMap.insertNew s.subproc_to_edge_ subproc.id edge })

/-- The member `StartCommandRemotely`.  `base::Hash` yields a `uint32`. -/
def StartCommandRemotely (env : Env) (s : MasterMainRunner) (edge : Edge) :
    Bool × MasterMainRunner :=
  let connection_id := FindMostAvailableSlave s
  if connection_id = INT_MIN then (false, s)
  else
    let output_paths := edge.outputs_
    let command := edge.command
    let edge_id := env.Hash command % 4294967296
    (true,
      { s with
        outstanding_edges_ := OrdMap.insert s.outstanding_edges_ edge_id edge
        posted := s.posted ++ [Posted.StartCommandRemotely connection_id output_paths
          edge.rspfile edge.rspfile_content command edge_id]
        pending_remote_commands_ := s.pending_remote_commands_ + 1 })

/-- The member `StartCommand`. -/
def StartCommand (env : Env) (os : LocalOutcome) (s : MasterMainRunner) (edge : Edge)
    (run_in_local : Bool) : Bool × MasterMainRunner :=
  if run_in_local || OrdMap.empty s.slave_info_id_map_ then StartCommandLocally os s edge
  else StartCommandRemotely env s edge

/-- The statements of `WaitForCommand` after its loop, for the subprocess
`subproc` that `NextFinished` yielded and the subprocess set `ss` it left:
the result is filled in, the subprocess leaves `subproc_to_edge_` and is
deleted.  Dereferencing `subproc_to_edge_.end()` is undefined. -/
def WaitForCommand_collect (s : MasterMainRunner) (subproc : Subprocess)
    (ss : SubprocessSet) : Except Fault (WaitOutcome × MasterMainRunner) :=
  match OrdMap.find s.subproc_to_edge_ subproc.id with
  | none => Except.error Fault.undefined_behaviour
  | some edge =>
    Except.ok
      (WaitOutcome.returned_true
        { edge := edge, status := subproc.status, output := subproc.output },
       { s with
         subprocs_ := ss
         subproc_to_edge_ := OrdMap.erase s.subproc_to_edge_ subproc.id })

/-- The member `WaitForCommand`: one element of the list is consumed by each
call of `DoWork` in the loop; with the list used up and no subprocess
finished, the call is still waiting. -/
def WaitForCommand : List DoWorkOutcome → MasterMainRunner →
    Except Fault (WaitOutcome × MasterMainRunner)
  | [], s =>
    match (SubprocessSet.NextFinished s.subprocs_).1 with
    | some subproc =>
      WaitForCommand_collect s subproc (SubprocessSet.NextFinished s.subprocs_).2
    | none => Except.ok (WaitOutcome.still_waiting, s)
  | o :: rest, s =>
    match (SubprocessSet.NextFinished s.subprocs_).1 with
    | some subproc =>
      WaitForCommand_collect s subproc (SubprocessSet.NextFinished s.subprocs_).2
    | none =>
      if (SubprocessSet.DoWork o s.subprocs_).1 then
        Except.ok (WaitOutcome.returned_false,
          { s with subprocs_ := (SubprocessSet.DoWork o s.subprocs_).2 })
      else WaitForCommand rest { s with subprocs_ := (SubprocessSet.DoWork o s.subprocs_).2 }

/-- The member `GetActiveEdges`. -/
def GetActiveEdges (s : MasterMainRunner) : List Edge :=
  s.subproc_to_edge_.map (fun e => e.2)

/-- The member `Abort`. -/
def Abort (s : MasterMainRunner) : MasterMainRunner :=
  { s with subprocs_ := SubprocessSet.Clear s.subprocs_ }

/-- The member `HasPendingLocalCommands`. -/
def HasPendingLocalCommands (s : MasterMainRunner) : Bool :=
  !(OrdMap.empty s.subproc_to_edge_)

/-- The member `OnFetchTargetsDone`; `has_run_locally` is the answer of the
graph engine to `HasRemoteCommandRunLocally(result.edge)`.  The DCHECK that the
call runs on MAIN concerns the thread model and has no counterpart here. -/
def OnFetchTargetsDone (has_run_locally : Bool) (s : MasterMainRunner) (result : Result) :
    MasterMainRunner :=
  if !has_run_locally then { s with posted := s.posted ++ [Posted.FinishCommand result] }
  else s

/-- The loop of `OnRemoteCommandDone` that pairs `outputs_[i]->path()` with
`md5s[i]`; reading `md5s[i]` past the end of the vector is undefined. -/
def make_targets : List String → List String → Option (List (String × String))
  | [], _ => some []
  | _ :: _, [] => none
  | path :: paths, md5 :: md5s =>
    match make_targets paths md5s with
    | some targets => some ((path, md5) :: targets)
    | none => none

/-- The member `OnRemoteCommandDone`. -/
def OnRemoteCommandDone (env : Env) (s : MasterMainRunner) (connection_id : Int)
    (edge_id : Nat) (status : ExitStatus) (output : String) (md5s : List String) :
    Except Fault MasterMainRunner :=
  let s1 : MasterMainRunner :=
    { s with pending_remote_commands_ := s.pending_remote_commands_ - 1 }
  if status ≠ ExitStatus.ExitSuccess then Except.ok s1
  else do
    let it := OrdMap.find s1.outstanding_edges_ edge_id
    DCHECK env it.isSome
    match it with
    | none => Except.error Fault.undefined_behaviour
    | some edge =>
      let result : Result := { edge := edge, status := status, output := output }
      let s2 : MasterMainRunner :=
        { s1 with outstanding_edges_ := OrdMap.erase s1.outstanding_edges_ edge_id }
      DCHECK env (decide (result.edge.outputs_.length = md5s.length))
      match make_targets result.edge.outputs_ md5s with
      | none => Except.error Fault.undefined_behaviour
      | some targets =>
        DCHECK env (OrdMap.find s2.slave_info_id_map_ connection_id).isSome
        let registry :=
          match OrdMap.find s2.slave_info_id_map_ connection_id with
          | some _ => s2.slave_info_id_map_
          | none => OrdMap.insert s2.slave_info_id_map_ connection_id SlaveInfo.default
        let info :=
          match OrdMap.find s2.slave_info_id_map_ connection_id with
          | some info => info
          | none => SlaveInfo.default
        let host := info.ip ++ ":" ++ "8080"
        pure
          { s2 with
            slave_info_id_map_ := registry
            posted := s2.posted ++ [Posted.FetchTargetsOnBlockingPool host targets result] }

/-- The loop of `FetchTargetsOnBlockingPool`, entered with the current value of
`success`: it yields the final value of `success` and the calls of
`curl_helper.Get(url, filename)` it made.  `Get` gives the MD5 that
`CurlHelper::Get` returns for a URL and a file name. -/
def fetch_loop (Get : String → String → String) (host : String) :
    List (String × String) → Bool → Bool × List (String × String)
  | [], success => (success, [])
  | target :: rest, _ =>
    let filename := target.1
    let url := kHttp ++ host ++ "/" ++ target.1
    let md5 := Get url filename
    let success := decide (md5 = target.2)
    if !success then (success, [(url, filename)])
    else
      let r := fetch_loop Get host rest success
      (r.1, (url, filename) :: r.2)

/-- The member `FetchTargetsOnBlockingPool`. -/
def FetchTargetsOnBlockingPool (Get : String → String → String) (host : String)
    (targets : List (String × String)) (result : Result) : FetchOutcome :=
  let r : Bool × List (String × String) :=
    if result.success then fetch_loop Get host targets false else (false, [])
  if r.1 then { gets := r.2, posted := [Posted.OnFetchTargetsDone result] }
  else { gets := r.2, posted := [] }

end MasterMainRunner

/-! ## Runs of the driver -/

/-- The calls that reach the driver: from the RPC thread, from the graph
engine, from the blocking pool and from the task queue of MAIN. -/
inductive Event where
  | StartBuild
  | SlaveSystemInfoAvailable (connection_id : Int) (info : SlaveInfo)
  | SlaveStatusUpdate (connection_id : Int) (load_average : Rat)
      (amount_of_running_commands : Int) (amount_of_available_physical_memory : Int)
  | SlaveClose (connection_id : Int)
  | StartCommand (edge : Edge) (run_in_local : Bool) (os : LocalOutcome)
  | WaitForCommand (observed : List DoWorkOutcome)
  | Abort
  | RemoteCommandDone (connection_id : Int) (edge_id : Nat) (status : ExitStatus)
      (output : String) (md5s : List String)
  | FetchTargets (host : String) (targets : List (String × String)) (result : Result)
      (Get : String → String → String)
  | FetchTargetsDone (result : Result) (has_run_locally : Bool)

/-- The effect of one event on the driver.  A task runs only if it was posted:
the fetch job must be among the posted tasks, and so must `OnFetchTargetsDone`. -/
def step (env : Env) (s : MasterMainRunner) : Event → Except Fault MasterMainRunner
  | Event.StartBuild => Except.ok (MasterMainRunner.StartBuild env s)
  | Event.SlaveSystemInfoAvailable connection_id info =>
    Except.ok (MasterMainRunner.OnSlaveSystemInfoAvailable env s connection_id info)
  | Event.SlaveStatusUpdate connection_id load_average running memory =>
    Except.ok (MasterMainRunner.OnSlaveStatusUpdate s connection_id load_average running memory)
  | Event.SlaveClose connection_id => MasterMainRunner.OnSlaveClose env s connection_id
  | Event.StartCommand edge run_in_local os =>
    Except.ok (MasterMainRunner.StartCommand env os s edge run_in_local).2
  | Event.WaitForCommand observed =>
    match MasterMainRunner.WaitForCommand observed s with
    | Except.ok r => Except.ok r.2
    | Except.error f => Except.error f
  | Event.Abort => Except.ok (MasterMainRunner.Abort s)
  | Event.RemoteCommandDone connection_id edge_id status output md5s =>
    MasterMainRunner.OnRemoteCommandDone env s connection_id edge_id status output md5s
  | Event.FetchTargets host targets result Get =>
    if Posted.FetchTargetsOnBlockingPool host targets result ∈ s.posted then
      Except.ok { s with posted := s.posted ++
        (MasterMainRunner.FetchTargetsOnBlockingPool Get host targets result).posted }
    else Except.error Fault.not_enabled
  | Event.FetchTargetsDone result has_run_locally =>
    if Posted.OnFetchTargetsDone result ∈ s.posted then
      Except.ok (MasterMainRunner.OnFetchTargetsDone has_run_locally s result)
    else Except.error Fault.not_enabled

/-- A run of the driver over a list of events.  `allowed s ev` says whether the
environment offers the event `ev` in the state `s`; a run stops at the first
event that is not offered and at the first fault. -/
def run (env : Env) (allowed : MasterMainRunner → Event → Bool) :
    List Event → MasterMainRunner → Except Fault MasterMainRunner
  | [], s => Except.ok s
  | ev :: rest, s =>
    if allowed s ev then
      match step env s ev with
      | Except.ok s1 => run env allowed rest s1
      | Except.error f => Except.error f
    else Except.error Fault.not_enabled

open MasterMainRunner

/-! ## Quantities the specification speaks of -/

/-- The processors a slave has free: `number_of_processors - amount_of_running_commands`. -/
def SlaveInfo.available (info : SlaveInfo) : Int :=
  info.number_of_processors - info.amount_of_running_commands

/-- The events of the slave registry: `OnSlaveSystemInfoAvailable`,
`OnSlaveStatusUpdate` and `OnSlaveClose`. -/
def Event.is_slave_event : Event → Bool
  | Event.SlaveSystemInfoAvailable _ _ => true
  | Event.SlaveStatusUpdate _ _ _ _ => true
  | Event.SlaveClose _ => true
  | _ => false

/-- The environment of the registry: any slave event. -/
def slave_events (_s : MasterMainRunner) (ev : Event) : Bool :=
  ev.is_slave_event

/-! ## Sample data for the concrete instances -/

/-- A master on Linux/x86_64 whose hash of a command is its length, with DCHECKs on. -/
def sample_env : Env :=
  { Hash := fun command => command.length
    OperatingSystemName := "Linux"
    OperatingSystemArchitecture := "x86_64"
    GuessParallelism := 2
    dcheck_is_on := true }

/-- The same master in a build without DCHECKs. -/
def sample_env_release : Env := { sample_env with dcheck_is_on := false }

/-- A Linux/x86_64 slave with the given processor count and running commands. -/
def sample_slave (number_of_processors running : Int) : SlaveInfo :=
  { ip := "10.0.0.7"
    operating_system_name := "Linux"
    operating_system_architecture := "x86_64"
    number_of_processors := number_of_processors
    load_average := 0
    amount_of_running_commands := running
    amount_of_available_physical_memory := 0 }

/-- A slave that reports another operating system. -/
def sample_foreign_slave : SlaveInfo :=
  { sample_slave 4 0 with operating_system_name := "Darwin" }

/-- A registry of two slaves: connection 1 has 8 free processors, connection 2 has 1. -/
def sample_registry : OrdMap Int SlaveInfo :=
  [(1, sample_slave 8 0), (2, sample_slave 1 0)]

/-- A matching slave registers, a foreign slave tries to, the first one reports
its status, and a connection that never registered closes. -/
def sample_mixed_registrations : List Event :=
  [Event.SlaveSystemInfoAvailable 1 (sample_slave 4 0),
   Event.SlaveSystemInfoAvailable 2 sample_foreign_slave,
   Event.SlaveStatusUpdate 1 (1 / 2) 3 4096,
   Event.SlaveClose 3]

/-- An edge with two outputs; its command has length 9, which is its `edge_id`
under `sample_env`. -/
def sample_edge : Edge :=
  { id_ := 1
    outputs_ := ["out/a.o", "out/b.o"]
    rspfile := ""
    rspfile_content := ""
    command := "cc -c a.c"
    use_console := false }

/-- The successful result of `sample_edge`. -/
def sample_result : Result :=
  { edge := sample_edge, status := ExitStatus.ExitSuccess, output := "done" }

/-- The targets of `sample_edge` with the MD5s `m1` and `m2`. -/
def sample_targets : List (String × String) :=
  [("out/a.o", "m1"), ("out/b.o", "m2")]

/-- An operating system that creates every directory, writes every file and
spawns every process. -/
def sample_os : LocalOutcome :=
  { CreateDirectory := fun _ => true
    WriteFile := fun _ _ => true
    Start := fun _ _ => true }

/-- A slave file server whose files have the MD5 `m1` under `out/a.o` and `m2` elsewhere. -/
def sample_Get_good (_url : String) (filename : String) : String :=
  if filename = "out/a.o" then "m1" else "m2"

/-- A slave file server whose every file has the MD5 `m1`. -/
def sample_Get_bad (_url : String) (_filename : String) : String := "m1"

/-- The environment that offers every event in every state. -/
def every_event (_s : MasterMainRunner) (_ev : Event) : Bool := true

/-- With `--max-slave-amount=1`: a slave with 4 processors registers, which
starts the build, and `sample_edge` is dispatched to it. -/
def sample_remote_dispatch : List Event :=
  [Event.SlaveSystemInfoAvailable 1 (sample_slave 4 0),
   Event.StartCommand sample_edge false sample_os]

/-- The pairs `(outputs[i], md5s[i])` the specification speaks of. -/
def outputs_manifest (outputs md5s : List String) : List (String × String) :=
  List.zip outputs md5s

/-- The call `GET http://<host>/<path>` into the file `<path>`, as the
specification words it for one target. -/
def expected_get (host : String) (target : String × String) : String × String :=
  ("http://" ++ host ++ "/" ++ target.1, target.1)

/-- A second edge; its command has length 10. -/
def sample_edge_b : Edge :=
  { id_ := 2
    outputs_ := ["out/bb.o"]
    rspfile := ""
    rspfile_content := ""
    command := "cc -c bb.c"
    use_console := false }

/-- A third edge; its command has length 11. -/
def sample_edge_c : Edge :=
  { id_ := 3
    outputs_ := ["out/ccc.o"]
    rspfile := ""
    rspfile_content := ""
    command := "cc -c ccc.c"
    use_console := false }

/-- The number of local subprocesses, as `LocalCanRunMore` counts them:
running ones and finished ones that have not been collected. -/
def local_count (s : MasterMainRunner) : Nat :=
  s.subprocs_.running_.length + s.subprocs_.finished_.length

/-- Whether a posted task belongs to the fetch of artifacts: the fetch job,
`OnFetchTargetsDone`, or the call of `FinishCommand` that `OnFetchTargetsDone` makes. -/
def Posted.is_fetch_related : Posted → Bool
  | Posted.FetchTargetsOnBlockingPool _ _ _ => true
  | Posted.OnFetchTargetsDone _ => true
  | Posted.FinishCommand _ => true
  | _ => false

/-- Whether a fetch job for the edge has been posted, that is, whether a remote
run of the edge has ended with success. -/
def fetch_posted_for (s : MasterMainRunner) (edge : Edge) : Bool :=
  s.posted.any (fun p =>
    match p with
    | Posted.FetchTargetsOnBlockingPool _ _ result => decide (result.edge = edge)
    | _ => false)

/-- A graph engine that does not dispatch an edge to a slave again once a
remote run of the edge has ended with success. -/
def no_remote_redispatch (s : MasterMainRunner) : Event → Bool
  | Event.StartCommand edge run_in_local _ =>
    run_in_local || OrdMap.empty s.slave_info_id_map_ || !(fetch_posted_for s edge)
  | _ => true

/-- A remote run of `sample_edge` fails, the edge is then run locally, and the
local subprocess is about to end. -/
def sample_local_retry : List Event :=
  [Event.SlaveSystemInfoAvailable 1 (sample_slave 4 0),
   Event.StartCommand sample_edge false sample_os,
   Event.RemoteCommandDone 1 9 ExitStatus.ExitFailure "failed" [],
   Event.StartCommand sample_edge true sample_os]

/-- A remote run of `sample_edge` succeeds, its artifacts are fetched and the
edge is finished through `OnFetchTargetsDone`. -/
def sample_remote_finish : List Event :=
  [Event.SlaveSystemInfoAvailable 1 (sample_slave 4 0),
   Event.StartCommand sample_edge false sample_os,
   Event.RemoteCommandDone 1 9 ExitStatus.ExitSuccess "done" ["m1", "m2"],
   Event.FetchTargets "10.0.0.7:8080" sample_targets sample_result sample_Get_good,
   Event.FetchTargetsDone sample_result false]

/-- The local subprocess 0 ends with success. -/
def sample_subprocess_0_ends : DoWorkOutcome :=
  { ended := [(0, ExitStatus.ExitSuccess, "ok")], interrupted := false }

/-- A fetch job for the edge is among the posted tasks. -/
def Fetched (posted : List Posted) (edge : Edge) : Prop :=
  ∃ host targets result,
    Posted.FetchTargetsOnBlockingPool host targets result ∈ posted ∧ result.edge = edge

/-- The bookkeeping of remote runs: every entry of the outstanding map is keyed
by the hash of its command; no edge in the map has a fetch job; and every
posted `OnFetchTargetsDone` and every `FinishCommand` stems from a fetch job. -/
def FetchInv (env : Env) (s : MasterMainRunner) : Prop :=
  (∀ entry ∈ s.outstanding_edges_, entry.1 = env.Hash entry.2.command % 4294967296) ∧
  (∀ entry ∈ s.outstanding_edges_, ¬ Fetched s.posted entry.2) ∧
  (∀ result, Posted.OnFetchTargetsDone result ∈ s.posted → Fetched s.posted result.edge) ∧
  (∀ result, Posted.FinishCommand result ∈ s.posted → Fetched s.posted result.edge)

/-- The step from `s` to `s1` leaves the outstanding map as it is and posts
nothing that belongs to the fetch of artifacts. -/
def Quiet (s s1 : MasterMainRunner) : Prop :=
  s1.outstanding_edges_ = s.outstanding_edges_ ∧
  ∃ extra, s1.posted = s.posted ++ extra ∧ ∀ p ∈ extra, p.is_fetch_related = false

/-- Every registered slave reports the operating system and architecture of the master. -/
def PlatformInv (env : Env) (s : MasterMainRunner) : Prop :=
  ∀ e ∈ s.slave_info_id_map_,
    e.2.operating_system_name = env.OperatingSystemName ∧
    e.2.operating_system_architecture = env.OperatingSystemArchitecture

/-- A slave reports `-1` processors and then `2147483647` running commands, so
that its number of free processors is `INT_MIN`. -/
def sample_no_candidate : List Event :=
  [Event.SlaveSystemInfoAvailable 1 (sample_slave (-1) 0),
   Event.SlaveStatusUpdate 1 0 2147483647 0]

/-- The number of calls of `RunBuild` so far. -/
def RunBuild_calls (s : MasterMainRunner) : Nat :=
  s.posted.count Posted.RunBuild

/-- The latch of the build for `--max-slave-amount=n`: while the build has not
started, `RunBuild` was not called and fewer than `n` slaves are registered;
once it has started, `RunBuild` was called exactly once. -/
def StartInv (n : Nat) (s : MasterMainRunner) : Prop :=
  s.max_slave_amount_ = n ∧
  (s.is_building_ = false →
    RunBuild_calls s = 0 ∧ OrdMap.size s.slave_info_id_map_ < n) ∧
  (s.is_building_ = true → RunBuild_calls s = 1)

/-- With `--max-slave-amount=2`: a slave registers, a foreign slave is turned
away, the first slave registers again and reports its status, a second slave
registers, a third one registers and the first one closes. -/
def sample_two_slaves_needed : List Event :=
  [Event.SlaveSystemInfoAvailable 1 (sample_slave 4 0),
   Event.SlaveSystemInfoAvailable 2 sample_foreign_slave,
   Event.SlaveSystemInfoAvailable 1 (sample_slave 4 0),
   Event.SlaveStatusUpdate 1 (1 / 2) 3 4096,
   Event.SlaveSystemInfoAvailable 3 (sample_slave 2 0),
   Event.SlaveSystemInfoAvailable 4 (sample_slave 2 0),
   Event.SlaveClose 1]

/-- The calls of the graph engine into the local side of the driver:
`StartCommand` with `run_in_local` set (which is `StartCommandLocally`),
`WaitForCommand` and `Abort`. -/
def Event.is_local_call : Event → Bool
  | Event.StartCommand _ run_in_local _ => run_in_local
  | Event.WaitForCommand _ => true
  | Event.Abort => true
  | _ => false

/-- Whether an event is a call of `Abort`. -/
def Event.is_abort : Event → Bool
  | Event.Abort => true
  | _ => false

/-- The environment of the local side: any local call. -/
def local_calls (_s : MasterMainRunner) (ev : Event) : Bool :=
  ev.is_local_call

/-- The identities of the subprocesses the local executor tracks: the running
ones and the finished ones that have not been collected. -/
def tracked_ids (ss : SubprocessSet) : List Nat :=
  ss.running_.map (fun p => p.id) ++ ss.finished_.map (fun p => p.id)

/-- The subprocesses that `subproc_to_edge_` holds an edge for. -/
def edge_map_ids (s : MasterMainRunner) : List Nat :=
  s.subproc_to_edge_.map (fun e => e.1)

/-- The tracked subprocesses are distinct, each has an entry in
`subproc_to_edge_`, and every entry is older than the next subprocess. -/
def LocalInv (s : MasterMainRunner) : Prop :=
  (tracked_ids s.subprocs_).Nodup ∧
  (∀ id ∈ tracked_ids s.subprocs_, id ∈ edge_map_ids s) ∧
  (∀ id ∈ edge_map_ids s, id < s.next_subproc)

/-- Every entry of `subproc_to_edge_` belongs to a tracked subprocess. -/
def LocalExact (s : MasterMainRunner) : Prop :=
  ∀ id ∈ edge_map_ids s, id ∈ tracked_ids s.subprocs_

/-- An edge is started locally and the build is aborted. -/
def sample_abort : List Event :=
  [Event.StartCommand sample_edge true sample_os, Event.Abort]

/-- Two edges are started locally, the first subprocess ends and is collected. -/
def sample_local_run : List Event :=
  [Event.StartCommand sample_edge true sample_os,
   Event.StartCommand sample_edge_b true sample_os,
   Event.WaitForCommand [sample_subprocess_0_ends]]

/-- The two calls of a run of remote dispatches and remote completions. -/
inductive RemoteCall where
  | StartCommandRemotely (edge : Edge)
  | OnRemoteCommandDone (connection_id : Int) (edge_id : Nat) (status : ExitStatus)
      (output : String) (md5s : List String)

/-- A run of `StartCommandRemotely` and `OnRemoteCommandDone` calls, together
with the list of the edge ids in flight: those dispatched and not yet
completed.  A dispatch is offered only if the hash of its command is not a key
of the outstanding map, a completion only for an edge id in flight; the run
stops at a call that is not offered and at a fault. -/
def remote_run (env : Env) :
    List RemoteCall → MasterMainRunner → List Nat → Except Fault (MasterMainRunner × List Nat)
  | [], s, in_flight => Except.ok (s, in_flight)
  | RemoteCall.StartCommandRemotely edge :: rest, s, in_flight =>
    if (OrdMap.find s.outstanding_edges_ (env.Hash edge.command % 4294967296)).isSome then
      Except.error Fault.not_enabled
    else if (StartCommandRemotely env s edge).1 then
      remote_run env rest (StartCommandRemotely env s edge).2
        ((env.Hash edge.command % 4294967296) :: in_flight)
    else remote_run env rest (StartCommandRemotely env s edge).2 in_flight
  | RemoteCall.OnRemoteCommandDone connection_id edge_id status output md5s :: rest,
      s, in_flight =>
    if edge_id ∈ in_flight then
      match OnRemoteCommandDone env s connection_id edge_id status output md5s with
      | Except.ok s1 => remote_run env rest s1 (in_flight.erase edge_id)
      | Except.error f => Except.error f
    else Except.error Fault.not_enabled

/-- The edge ids in flight are distinct keys of the outstanding map, and
`pending_remote_commands_` counts them. -/
def RemoteInv (s : MasterMainRunner) (in_flight : List Nat) : Prop :=
  in_flight.Nodup ∧
  (∀ id ∈ in_flight, id ∈ s.outstanding_edges_.map (fun e => e.1)) ∧
  s.pending_remote_commands_ = (in_flight.length : Int)

/-- A driver with slave 1 registered, an empty outstanding map and no pending
remote command. -/
def sample_idle : MasterMainRunner :=
  { init (some 1) 1 with
    slave_info_id_map_ := [(1, sample_slave 4 0)]
    number_of_slave_processors_ := 6
    is_building_ := true }

/-- Three edges are dispatched; the first remote run fails and the second one
succeeds. -/
def sample_remote_calls : List RemoteCall :=
  [RemoteCall.StartCommandRemotely sample_edge,
   RemoteCall.StartCommandRemotely sample_edge_b,
   RemoteCall.OnRemoteCommandDone 1 9 ExitStatus.ExitFailure "failed" [],
   RemoteCall.StartCommandRemotely sample_edge_c,
   RemoteCall.OnRemoteCommandDone 1 10 ExitStatus.ExitSuccess "done" ["m1"]]

/-- An edge other than `sample_edge` whose command has the same length 9, and so
the same `edge_id` under `sample_env`. -/
def sample_edge_twin : Edge :=
  { id_ := 4
    outputs_ := ["out/c.o", "out/d.o"]
    rspfile := ""
    rspfile_content := ""
    command := "cc -c c.c"
    use_console := false }

/-- With `--max-slave-amount=1`: slave 1 registers, `sample_edge` and
`sample_edge_twin` are dispatched to it under the same `edge_id` 9, and the
slave reports the successful end of the first of the two commands. -/
def sample_hash_collision : List Event :=
  [Event.SlaveSystemInfoAvailable 1 (sample_slave 4 0),
   Event.StartCommand sample_edge false sample_os,
   Event.StartCommand sample_edge_twin false sample_os,
   Event.RemoteCommandDone 1 9 ExitStatus.ExitSuccess "done" ["m1", "m2"]]

/-! ## Lemmas on `OrdMap` -/

namespace OrdMap

variable {κ α : Type}

theorem find_erase_self [DecidableEq κ] (m : OrdMap κ α) (k : κ) :
    find (erase m k) k = none := by
  induction m with
  | nil => rfl
  | cons kv rest ih =>
    by_cases h : kv.1 = k
    · simpa [erase, List.filter_cons, h] using ih
    · simpa [erase, List.filter_cons, h, find] using ih

theorem mem_erase [DecidableEq κ] {m : OrdMap κ α} {k : κ} {x : κ × α}
    (h : x ∈ erase m k) : x ∈ m ∧ x.1 ≠ k := by
  simpa [erase, List.mem_filter] using h

theorem mem_insert [DecidableEq κ] [LT κ] [DecidableRel (fun (a b : κ) => a < b)]
    {m : OrdMap κ α} {k : κ} {v : α} {x : κ × α} (h : x ∈ insert m k v) :
    x = (k, v) ∨ x ∈ m := by
  induction m with
  | nil => simpa [insert] using h
  | cons kv rest ih =>
    obtain ⟨k', v'⟩ := kv
    unfold insert at h
    split at h
    · rcases List.mem_cons.1 h with h1 | h1
      · exact Or.inl h1
      · exact Or.inr (List.mem_cons_of_mem _ h1)
    · split at h
      · rcases List.mem_cons.1 h with h1 | h1
        · exact Or.inl h1
        · exact Or.inr h1
      · rcases List.mem_cons.1 h with h1 | h1
        · exact Or.inr (h1 ▸ List.mem_cons_self _ _)
        · rcases ih h1 with h2 | h2
          · exact Or.inl h2
          · exact Or.inr (List.mem_cons_of_mem _ h2)

theorem mem_modify [DecidableEq κ] {m : OrdMap κ α} {k : κ} {f : α → α} {x : κ × α}
    (h : x ∈ modify m k f) : ∃ y ∈ m, x = y ∨ x = (y.1, f y.2) := by
  unfold modify at h
  obtain ⟨y, hy, hxy⟩ := List.mem_map.1 h
  refine ⟨y, hy, ?_⟩
  by_cases hk : y.1 = k
  · rw [if_pos hk] at hxy
    exact Or.inr hxy.symm
  · rw [if_neg hk] at hxy
    exact Or.inl hxy.symm

end OrdMap

/-! ## Lemmas on the remote capacity -/

theorem run_invariant (env : Env) (allowed : MasterMainRunner → Event → Bool)
    (Inv : MasterMainRunner → Prop)
    (hstep : ∀ s ev s1, Inv s → allowed s ev = true → step env s ev = Except.ok s1 → Inv s1) :
    ∀ (evs : List Event) (s s1 : MasterMainRunner),
      Inv s → run env allowed evs s = Except.ok s1 → Inv s1 := by
  intro evs
  induction evs with
  | nil =>
    intro s s1 hs h
    simp only [run, Except.ok.injEq] at h
    exact h ▸ hs
  | cons ev rest ih =>
    intro s s1 hs h
    unfold run at h
    by_cases ha : allowed s ev = true
    · rw [if_pos ha] at h
      cases hst : step env s ev with
      | error f => rw [hst] at h; exact absurd h (by simp)
      | ok s2 =>
        rw [hst] at h
        exact ih s2 s1 (hstep s ev s2 hs ha hst) h
    · rw [if_neg ha] at h
      exact absurd h (by simp)

theorem run_restrict (env : Env) (allowed : MasterMainRunner → Event → Bool)
    (keep : Event → Bool) :
    ∀ (evs : List Event) (s s1 : MasterMainRunner),
      (∀ ev ∈ evs, keep ev = true) → run env allowed evs s = Except.ok s1 →
      run env (fun s ev => allowed s ev && keep ev) evs s = Except.ok s1 := by
  intro evs
  induction evs with
  | nil => intro s s1 _ h; simpa [run] using h
  | cons ev rest ih =>
    intro s s1 hk h
    unfold run at h ⊢
    have hkev : keep ev = true := hk ev (List.mem_cons_self _ _)
    by_cases ha : allowed s ev = true
    · rw [if_pos ha] at h
      rw [if_pos (by simp [ha, hkev])]
      cases hst : step env s ev with
      | error f => rw [hst] at h; exact absurd h (by simp)
      | ok s2 =>
        rw [hst] at h
        exact ih s2 s1 (fun e he => hk e (List.mem_cons_of_mem _ he)) h
    · rw [if_neg ha] at h
      exact absurd h (by simp)

/-! ## Lemmas on the registry handlers -/

theorem StartBuild_registry (env : Env) (s : MasterMainRunner) :
    (StartBuild env s).slave_info_id_map_ = s.slave_info_id_map_ ∧
    (StartBuild env s).number_of_slave_processors_ = s.number_of_slave_processors_ := by
  unfold StartBuild
  split <;> exact ⟨rfl, rfl⟩

/-- What `OnSlaveSystemInfoAvailable` does to the registry and to the capacity:
nothing, or the admission of the slave under a new key. -/
theorem OnSlaveSystemInfoAvailable_cases (env : Env) (s : MasterMainRunner) (c : Int)
    (info : SlaveInfo) :
    ((OnSlaveSystemInfoAvailable env s c info).slave_info_id_map_ = s.slave_info_id_map_ ∧
      (OnSlaveSystemInfoAvailable env s c info).number_of_slave_processors_ =
        s.number_of_slave_processors_) ∨
    (OrdMap.find s.slave_info_id_map_ c = none ∧
      info.operating_system_name = env.OperatingSystemName ∧
      info.operating_system_architecture = env.OperatingSystemArchitecture ∧
      (OnSlaveSystemInfoAvailable env s c info).slave_info_id_map_ =
        OrdMap.insert s.slave_info_id_map_ c info ∧
      (OnSlaveSystemInfoAvailable env s c info).number_of_slave_processors_ =
        add_slave_processors s.number_of_slave_processors_ info.number_of_processors) := by
  unfold OnSlaveSystemInfoAvailable
  by_cases h1 : (OrdMap.find s.slave_info_id_map_ c).isSome = true
  · rw [if_pos h1]
    exact Or.inl ⟨rfl, rfl⟩
  · rw [if_neg h1]
    by_cases h2 : info.operating_system_name ≠ env.OperatingSystemName ∨
        info.operating_system_architecture ≠ env.OperatingSystemArchitecture
    · rw [if_pos h2]
      exact Or.inl ⟨rfl, rfl⟩
    · rw [if_neg h2]
      right
      have h3 : OrdMap.find s.slave_info_id_map_ c = none := by
        cases hf : OrdMap.find s.slave_info_id_map_ c with
        | none => rfl
        | some v => simp [hf] at h1
      have h4 : info.operating_system_name = env.OperatingSystemName ∧
          info.operating_system_architecture = env.OperatingSystemArchitecture := by
        constructor
        · by_contra hc; exact h2 (Or.inl hc)
        · by_contra hc; exact h2 (Or.inr hc)
      refine ⟨h3, h4.1, h4.2, ?_⟩
      simp only
      split
      · exact ⟨(StartBuild_registry env _).1, (StartBuild_registry env _).2⟩
      · exact ⟨rfl, rfl⟩

theorem OnSlaveStatusUpdate_cases (s : MasterMainRunner) (c : Int) (l : Rat) (r m : Int) :
    (OnSlaveStatusUpdate s c l r m).number_of_slave_processors_ =
      s.number_of_slave_processors_ ∧
    ((OnSlaveStatusUpdate s c l r m).slave_info_id_map_ = s.slave_info_id_map_ ∨
     (OnSlaveStatusUpdate s c l r m).slave_info_id_map_ =
      OrdMap.modify s.slave_info_id_map_ c (fun info =>
        { info with
          load_average := l
          amount_of_running_commands := r
          amount_of_available_physical_memory := m })) := by
  unfold OnSlaveStatusUpdate
  split
  · exact ⟨rfl, Or.inl rfl⟩
  · exact ⟨rfl, Or.inr rfl⟩

theorem OnSlaveClose_ok (env : Env) (s s1 : MasterMainRunner) (c : Int)
    (h : OnSlaveClose env s c = Except.ok s1) :
    s1 = { s with slave_info_id_map_ := OrdMap.erase s.slave_info_id_map_ c } := by
  unfold OnSlaveClose DCHECK at h
  split at h
  · exact absurd h (by simp [bind, Except.bind])
  · simp only [bind, Except.bind, pure, Except.pure, Except.ok.injEq] at h
    exact h.symm

/-- Every event allowed by `slave_events` is one of the three registry events. -/
theorem slave_event_cases (ev : Event) (h : ev.is_slave_event = true) :
    (∃ c info, ev = Event.SlaveSystemInfoAvailable c info) ∨
    (∃ c l r m, ev = Event.SlaveStatusUpdate c l r m) ∨
    (∃ c, ev = Event.SlaveClose c) := by
  cases ev <;> simp [Event.is_slave_event] at h
  · exact Or.inl ⟨_, _, rfl⟩
  · exact Or.inr (Or.inl ⟨_, _, _, _, rfl⟩)
  · exact Or.inr (Or.inr ⟨_, rfl⟩)

/-! ## C1: `FindMostAvailableSlave` -/

theorem FindMostAvailableSlave_fold (l : List (Int × SlaveInfo)) (c : Int)
    (h : ∀ e ∈ l, INT_MIN < e.2.available) :
    l.foldl FindMostAvailableSlave_step (c, INT_MIN) =
      ((l.map (fun e => e.1)).getLastD c, INT_MIN) := by
  induction l generalizing c with
  | nil => rfl
  | cons e rest ih =>
    have he : INT_MIN < e.2.number_of_processors - e.2.amount_of_running_commands :=
      h e (List.mem_cons_self _ _)
    have hstep : FindMostAvailableSlave_step (c, INT_MIN) e = (e.1, INT_MIN) := by
      simp [FindMostAvailableSlave_step, he]
    rw [List.foldl_cons, hstep, ih e.1 (fun x hx => h x (List.mem_cons_of_mem _ hx)),
      List.map_cons, List.getLastD_cons]

/-- The loop of `FindMostAvailableSlave` never raises its running maximum, so
on a registry whose slaves all have more than `INT_MIN` free processors it
returns the connection id that comes last in iteration order. -/
theorem FindMostAvailableSlave_eq_last (s : MasterMainRunner)
    (h : ∀ e ∈ s.slave_info_id_map_, INT_MIN < e.2.available) :
    FindMostAvailableSlave s = (s.slave_info_id_map_.map (fun e => e.1)).getLastD INT_MIN := by
  unfold FindMostAvailableSlave
  rw [FindMostAvailableSlave_fold _ _ h]

/-- C1 (code bug): after slave 1 with 8 free processors and slave 2 with 1 free
processor have registered, `FindMostAvailableSlave` returns connection 2, not
connection 1, which has the largest number of free processors. -/
theorem C1_FindMostAvailableSlave_returns_last_registered :
    ∃ s, run sample_env slave_events
        [Event.SlaveSystemInfoAvailable 1 (sample_slave 8 0),
         Event.SlaveSystemInfoAvailable 2 (sample_slave 1 0)] (init none 1) = Except.ok s ∧
      s.slave_info_id_map_ = sample_registry ∧
      FindMostAvailableSlave s = 2 ∧
      (sample_slave 8 0).available = 8 ∧
      (sample_slave 1 0).available = 1 :=
  ⟨_, rfl, rfl, rfl, rfl, rfl⟩

/-! ## C2: the remote capacity -/

theorem platform_step (env : Env) (s s1 : MasterMainRunner) (ev : Event)
    (hs : PlatformInv env s) (ha : slave_events s ev = true)
    (hst : step env s ev = Except.ok s1) : PlatformInv env s1 := by
  rcases slave_event_cases ev ha with ⟨c, info, rfl⟩ | ⟨c, l, r, m, rfl⟩ | ⟨c, rfl⟩
  · simp only [step, Except.ok.injEq] at hst
    subst hst
    rcases OnSlaveSystemInfoAvailable_cases env s c info with ⟨hr, _⟩ | ⟨_, hn, ha, hr, _⟩
    · rw [PlatformInv, hr]; exact hs
    · rw [PlatformInv, hr]
      intro e he
      rcases OrdMap.mem_insert he with h1 | h1
      · rw [h1]; exact ⟨hn, ha⟩
      · exact hs e h1
  · simp only [step, Except.ok.injEq] at hst
    subst hst
    obtain ⟨_, hr | hr⟩ := OnSlaveStatusUpdate_cases s c l r m
    · rw [PlatformInv, hr]; exact hs
    · rw [PlatformInv, hr]
      intro e he
      obtain ⟨y, hy, h1 | h1⟩ := OrdMap.mem_modify he
      · rw [h1]; exact hs y hy
      · rw [h1]; exact hs y hy
  · simp only [step] at hst
    have h1 := OnSlaveClose_ok env s s1 c hst
    subst h1
    intro e he
    exact hs e (OrdMap.mem_erase he).1

/-- C3: in every state reachable from the initial state by
`OnSlaveSystemInfoAvailable`, `OnSlaveStatusUpdate` and `OnSlaveClose` events,
every slave in the registry has the operating system name and architecture of
the master; and a call of `OnSlaveSystemInfoAvailable` whose name or
architecture differs from the master's leaves the registry and
`number_of_slave_processors_` unchanged. -/
theorem C3_registry_holds_only_matching_slaves (env : Env) (max_slave_amount : Option Nat)
    (par : Int) (evs : List Event) (s : MasterMainRunner)
    (h : run env slave_events evs (init max_slave_amount par) = Except.ok s) :
    (∀ e ∈ s.slave_info_id_map_,
      e.2.operating_system_name = env.OperatingSystemName ∧
      e.2.operating_system_architecture = env.OperatingSystemArchitecture) ∧
    (∀ c info,
      (info.operating_system_name ≠ env.OperatingSystemName ∨
        info.operating_system_architecture ≠ env.OperatingSystemArchitecture) →
      (OnSlaveSystemInfoAvailable env s c info).slave_info_id_map_ = s.slave_info_id_map_ ∧
      (OnSlaveSystemInfoAvailable env s c info).number_of_slave_processors_ =
        s.number_of_slave_processors_) := by
  constructor
  · exact run_invariant env slave_events (PlatformInv env)
      (fun s ev s1 hs ha hst => platform_step env s s1 ev hs ha hst)
      evs _ s (fun e he => by simp [init] at he) h
  · intro c info hne
    rcases OnSlaveSystemInfoAvailable_cases env s c info with hsame | ⟨_, hn, ha, _, _⟩
    · exact hsame
    · rcases hne with h1 | h1
      · exact absurd hn h1
      · exact absurd ha h1

/-- C3 (instance): in a build without DCHECKs a matching slave registers, a
foreign slave tries to, the first one reports its status and an unknown
connection closes; only connection 1 is registered. -/
theorem C3_registry_holds_only_matching_slaves_witness :
    ∃ s, run sample_env_release slave_events sample_mixed_registrations (init none 1) =
        Except.ok s ∧
      s.slave_info_id_map_.map (fun e => e.1) = [1] ∧
      ((∀ e ∈ s.slave_info_id_map_,
        e.2.operating_system_name = sample_env_release.OperatingSystemName ∧
        e.2.operating_system_architecture = sample_env_release.OperatingSystemArchitecture) ∧
       (∀ c info,
        (info.operating_system_name ≠ sample_env_release.OperatingSystemName ∨
          info.operating_system_architecture ≠
            sample_env_release.OperatingSystemArchitecture) →
        (OnSlaveSystemInfoAvailable sample_env_release s c info).slave_info_id_map_ =
          s.slave_info_id_map_ ∧
        (OnSlaveSystemInfoAvailable sample_env_release s c info).number_of_slave_processors_ =
          s.number_of_slave_processors_)) :=
  ⟨_, rfl, rfl,
    C3_registry_holds_only_matching_slaves sample_env_release none 1
      sample_mixed_registrations _ rfl⟩

/-! ## Lemmas on `OnRemoteCommandDone` and the fetch job -/

theorem make_targets_eq_zip (outputs md5s : List String) (h : outputs.length = md5s.length) :
    make_targets outputs md5s = some (List.zip outputs md5s) := by
  induction outputs generalizing md5s with
  | nil => cases md5s <;> rfl
  | cons o rest ih =>
    cases md5s with
    | nil => simp at h
    | cons m ms =>
      have hl : rest.length = ms.length := by simpa using h
      simp [make_targets, ih ms hl]

/-- The state `OnRemoteCommandDone` leaves after a successful completion of a
known edge, and the fetch job it posts. -/
theorem OnRemoteCommandDone_success (env : Env) (s : MasterMainRunner) (connection_id : Int)
    (edge_id : Nat) (output : String) (md5s : List String) (edge : Edge)
    (hfind : OrdMap.find s.outstanding_edges_ edge_id = some edge)
    (hlen : md5s.length = edge.outputs_.length)
    (hconn : env.dcheck_is_on = true →
      (OrdMap.find s.slave_info_id_map_ connection_id).isSome = true) :
    OnRemoteCommandDone env s connection_id edge_id ExitStatus.ExitSuccess output md5s =
      Except.ok
        { s with
          pending_remote_commands_ := s.pending_remote_commands_ - 1
          outstanding_edges_ := OrdMap.erase s.outstanding_edges_ edge_id
          slave_info_id_map_ :=
            match OrdMap.find s.slave_info_id_map_ connection_id with
            | some _ => s.slave_info_id_map_
            | none => OrdMap.insert s.slave_info_id_map_ connection_id SlaveInfo.default
          posted := s.posted ++
            [Posted.FetchTargetsOnBlockingPool
              ((match OrdMap.find s.slave_info_id_map_ connection_id with
                | some info => info
                | none => SlaveInfo.default).ip ++ ":" ++ "8080")
              (List.zip edge.outputs_ md5s)
              { edge := edge, status := ExitStatus.ExitSuccess, output := output }] } := by
  have hdc : (env.dcheck_is_on && !(OrdMap.find s.slave_info_id_map_ connection_id).isSome)
      = false := by
    cases hd : env.dcheck_is_on with
    | false => rfl
    | true => simp [hconn hd]
  unfold OnRemoteCommandDone
  simp only [ne_eq, not_true_eq_false, if_false, hfind, DCHECK, Option.isSome_some,
    Bool.not_true, Bool.and_false, Bool.false_eq_true, bind, Except.bind, hlen.symm,
    decide_True, make_targets_eq_zip edge.outputs_ md5s hlen.symm, hdc, pure, Except.pure]

theorem OnRemoteCommandDone_failure (env : Env) (s : MasterMainRunner) (connection_id : Int)
    (edge_id : Nat) (status : ExitStatus) (output : String) (md5s : List String)
    (h : status ≠ ExitStatus.ExitSuccess) :
    OnRemoteCommandDone env s connection_id edge_id status output md5s =
      Except.ok { s with pending_remote_commands_ := s.pending_remote_commands_ - 1 } := by
  unfold OnRemoteCommandDone
  simp [h]

/-- A successful completion for an `edge_id` that is not a key of the
outstanding map never runs to its end: the DCHECK on the lookup fails, or the
end iterator is dereferenced. -/
theorem OnRemoteCommandDone_unknown_edge (env : Env) (s : MasterMainRunner)
    (connection_id : Int) (edge_id : Nat) (output : String) (md5s : List String)
    (hfind : OrdMap.find s.outstanding_edges_ edge_id = none) :
    OnRemoteCommandDone env s connection_id edge_id ExitStatus.ExitSuccess output md5s =
      Except.error
        (if env.dcheck_is_on then Fault.dcheck_failed else Fault.undefined_behaviour) := by
  unfold OnRemoteCommandDone
  cases hd : env.dcheck_is_on <;>
    simp [hfind, DCHECK, hd, bind, Except.bind]

/-- The loop of the fetch job when every target matches: it ends with
`success` unchanged on an empty list and `true` otherwise, after one GET per target. -/
theorem fetch_loop_all_match (Get : String → String → String) (host : String)
    (targets : List (String × String)) (b : Bool)
    (h : ∀ t ∈ targets, Get (kHttp ++ host ++ "/" ++ t.1) t.1 = t.2) :
    fetch_loop Get host targets b =
      (if targets.isEmpty then b else true,
        targets.map (fun t => (kHttp ++ host ++ "/" ++ t.1, t.1))) := by
  induction targets generalizing b with
  | nil => rfl
  | cons t rest ih =>
    have ht := h t (List.mem_cons_self _ _)
    have ih1 := ih true (fun x hx => h x (List.mem_cons_of_mem _ hx))
    unfold fetch_loop
    simp only [ht, decide_True, Bool.not_true, Bool.false_eq_true, if_false, ih1,
      List.isEmpty_cons, List.map_cons]
    cases rest <;> rfl

/-- The loop of the fetch job when the first mismatch is at index `i`: it ends
with `success = false` after the GETs of the targets `0..i`. -/
theorem fetch_loop_first_mismatch (Get : String → String → String) (host : String)
    (targets : List (String × String)) (b : Bool) (i : Nat) (hi : i < targets.length)
    (hmatch : ∀ j t, j < i → targets[j]? = some t →
      Get (kHttp ++ host ++ "/" ++ t.1) t.1 = t.2)
    (hbad : ∀ t, targets[i]? = some t → Get (kHttp ++ host ++ "/" ++ t.1) t.1 ≠ t.2) :
    fetch_loop Get host targets b =
      (false, (targets.take (i + 1)).map (fun t => (kHttp ++ host ++ "/" ++ t.1, t.1))) := by
  induction targets generalizing b i with
  | nil => simp at hi
  | cons t rest ih =>
    cases i with
    | zero =>
      have ht : Get (kHttp ++ host ++ "/" ++ t.1) t.1 ≠ t.2 := hbad t (by simp)
      unfold fetch_loop
      simp [ht]
    | succ n =>
      have ht : Get (kHttp ++ host ++ "/" ++ t.1) t.1 = t.2 :=
        hmatch 0 t (Nat.succ_pos n) (by simp)
      have ih1 := ih true n (by simpa using hi)
        (fun j x hj hx => hmatch (j + 1) x (by omega) (by simpa using hx))
        (fun x hx => hbad x (by simpa using hx))
      unfold fetch_loop
      simp only [ht, decide_True, Bool.not_true, Bool.false_eq_true, if_false, ih1,
        List.take_succ_cons, List.map_cons]

theorem fetch_loop_some_mismatch (Get : String → String → String) (host : String)
    (targets : List (String × String)) (b : Bool)
    (h : ∃ t ∈ targets, Get (kHttp ++ host ++ "/" ++ t.1) t.1 ≠ t.2) :
    (fetch_loop Get host targets b).1 = false := by
  induction targets generalizing b with
  | nil => simp at h
  | cons t rest ih =>
    unfold fetch_loop
    by_cases ht : Get (kHttp ++ host ++ "/" ++ t.1) t.1 = t.2
    · obtain ⟨x, hx, hne⟩ := h
      rcases List.mem_cons.1 hx with h1 | h1
      · exact absurd (h1 ▸ ht) hne
      · simp only [ht, decide_True, Bool.not_true, Bool.false_eq_true, if_false]
        exact ih true ⟨x, h1, hne⟩
    · simp [ht]

/-! ## C6: a successful completion for an unknown edge -/

/-- C6 (code bug): two edges whose commands have the same hash are dispatched
to slave 1, so the outstanding map holds one entry for both; the successful
completion of the first command removes it, and one command is still pending.
The successful completion of the second command then names an `edge_id` that is
not a key of the outstanding map: the handler does not drop it, it fails its
own `DCHECK(it != outstanding_edges_.end())` where DCHECKs are compiled in and
dereferences the end iterator otherwise. -/
theorem C6_second_completion_of_colliding_edges_faults :
    ∃ s, run sample_env every_event sample_hash_collision (init (some 1) 1) = Except.ok s ∧
      sample_env.Hash sample_edge.command = sample_env.Hash sample_edge_twin.command ∧
      sample_edge ≠ sample_edge_twin ∧
      s.pending_remote_commands_ = 1 ∧
      OrdMap.find s.outstanding_edges_ 9 = none ∧
      OnRemoteCommandDone sample_env s 1 9 ExitStatus.ExitSuccess "done" ["m1", "m2"] =
        Except.error Fault.dcheck_failed ∧
      OnRemoteCommandDone sample_env_release s 1 9 ExitStatus.ExitSuccess "done"
          ["m1", "m2"] =
        Except.error Fault.undefined_behaviour :=
  ⟨_, rfl, rfl, by decide, rfl, rfl, rfl, rfl⟩

/-! ## C7 and C8: the fetch job -/

/-- C7 (counterexample): for a successful result and an empty target list the
fetch job issues no GET and does not post `OnFetchTargetsDone`. -/
theorem C7_empty_target_list_posts_nothing :
    sample_result.success = true ∧
    (∀ t ∈ ([] : List (String × String)),
      sample_Get_good (expected_get "10.0.0.7:8080" t).1 t.1 = t.2) ∧
    FetchTargetsOnBlockingPool sample_Get_good "10.0.0.7:8080" [] sample_result =
      { gets := [], posted := [] } :=
  ⟨rfl, fun _ h => absurd h (List.not_mem_nil _), rfl⟩

/-- C7 (amended): for every successful result and every non-empty target list
in which the MD5 computed for each fetched file equals the MD5 of its entry,
`FetchTargetsOnBlockingPool` posts `OnFetchTargetsDone(result)` exactly once
(and nothing else), after one GET per target in declared order. -/
theorem C7_fetch_success_posts_done_once (Get : String → String → String) (host : String)
    (targets : List (String × String)) (result : Result)
    (hsuccess : result.success = true) (hne : targets ≠ [])
    (hmd5 : ∀ t ∈ targets, Get (expected_get host t).1 t.1 = t.2) :
    (FetchTargetsOnBlockingPool Get host targets result).posted =
      [Posted.OnFetchTargetsDone result] ∧
    (FetchTargetsOnBlockingPool Get host targets result).gets =
      targets.map (expected_get host) := by
  have hloop := fetch_loop_all_match Get host targets false
    (fun t ht => by simpa [expected_get, kHttp] using hmd5 t ht)
  have hemp : targets.isEmpty = false := by
    cases targets with
    | nil => exact absurd rfl hne
    | cons _ _ => rfl
  have hurl : (fun t : String × String => (kHttp ++ host ++ "/" ++ t.1, t.1)) =
      expected_get host := rfl
  unfold FetchTargetsOnBlockingPool
  rw [if_pos hsuccess, hloop, hemp, hurl]
  exact ⟨rfl, rfl⟩

/-- C7 (instance): both files of `sample_targets` arrive with the reported MD5. -/
theorem C7_fetch_success_posts_done_once_witness :
    sample_result.success = true ∧ sample_targets ≠ [] ∧
    (FetchTargetsOnBlockingPool sample_Get_good "10.0.0.7:8080" sample_targets
        sample_result).posted = [Posted.OnFetchTargetsDone sample_result] ∧
    (FetchTargetsOnBlockingPool sample_Get_good "10.0.0.7:8080" sample_targets
        sample_result).gets =
      [("http://10.0.0.7:8080/out/a.o", "out/a.o"),
       ("http://10.0.0.7:8080/out/b.o", "out/b.o")] :=
  ⟨rfl, by decide,
    C7_fetch_success_posts_done_once sample_Get_good "10.0.0.7:8080" sample_targets
      sample_result rfl (by decide) (by decide)⟩

/-- C8: for every fetch job of a successful result (the loop of the job runs
for no other) and every target list whose first entry with computed MD5 ≠
reported MD5 is at index `i`, `FetchTargetsOnBlockingPool` issues the GETs of
exactly the entries `0..i`, in declared order and with the URL
`"http://" + host + "/" + path`, and does not post `OnFetchTargetsDone`. -/
theorem C8_fetch_stops_at_first_mismatch (Get : String → String → String) (host : String)
    (targets : List (String × String)) (result : Result) (i : Nat)
    (hsuccess : result.success = true) (hi : i < targets.length)
    (hmatch : ∀ j t, j < i → targets[j]? = some t →
      Get (expected_get host t).1 t.1 = t.2)
    (hbad : ∀ t, targets[i]? = some t → Get (expected_get host t).1 t.1 ≠ t.2) :
    (FetchTargetsOnBlockingPool Get host targets result).gets =
      (targets.take (i + 1)).map (expected_get host) ∧
    (FetchTargetsOnBlockingPool Get host targets result).posted = [] := by
  have hloop := fetch_loop_first_mismatch Get host targets false i hi
    (fun j t hj ht => by simpa [expected_get, kHttp] using hmatch j t hj ht)
    (fun t ht => by simpa [expected_get, kHttp] using hbad t ht)
  have hurl : (fun t : String × String => (kHttp ++ host ++ "/" ++ t.1, t.1)) =
      expected_get host := rfl
  unfold FetchTargetsOnBlockingPool
  rw [if_pos hsuccess, hloop, hurl]
  exact ⟨rfl, rfl⟩

/-- C8 (instance): the server answers `m1` for every file, so of three targets
reported as `m1`, `m2`, `m1` the second is the first mismatch; two GETs are
issued, the third target is not attempted and nothing is posted. -/
theorem C8_fetch_stops_at_first_mismatch_witness :
    sample_result.success = true ∧
    1 < (sample_targets ++ [("out/c.o", "m1")]).length ∧
    (FetchTargetsOnBlockingPool sample_Get_bad "10.0.0.7:8080"
        (sample_targets ++ [("out/c.o", "m1")]) sample_result).gets =
      ((sample_targets ++ [("out/c.o", "m1")]).take (1 + 1)).map
        (expected_get "10.0.0.7:8080") ∧
    (FetchTargetsOnBlockingPool sample_Get_bad "10.0.0.7:8080"
        (sample_targets ++ [("out/c.o", "m1")]) sample_result).posted = [] :=
  ⟨rfl, by decide,
    C8_fetch_stops_at_first_mismatch sample_Get_bad "10.0.0.7:8080"
      (sample_targets ++ [("out/c.o", "m1")]) sample_result 1 rfl (by decide)
      (fun j t hj ht => by
        have hj0 : j = 0 := by omega
        subst hj0
        simp only [sample_targets, List.cons_append, List.getElem?_cons_zero,
          Option.some.injEq] at ht
        subst ht
        rfl)
      (fun t ht => by
        simp only [sample_targets, List.cons_append, List.getElem?_cons_succ,
          List.getElem?_cons_zero, Option.some.injEq] at ht
        subst ht
        decide)⟩

/-! ## C9 and C10: a successful remote completion -/

/-- C10: for every call of `OnRemoteCommandDone` with status success, an
`edge_id` present in the outstanding map and an MD5 vector as long as the
output list of the edge (and, where DCHECKs are on, a connection id the
registry knows, as the DCHECK of the handler demands), the handler removes the
`edge_id` from the outstanding map and posts exactly one task, the fetch job
whose target list is `[(outputs[i], md5s[i])]` for `i = 0..n-1`: it has the
length and the order of the declared outputs. -/
theorem C10_success_completion_posts_one_fetch_job (env : Env) (s : MasterMainRunner)
    (connection_id : Int) (edge_id : Nat) (output : String) (md5s : List String)
    (edge : Edge)
    (hfind : OrdMap.find s.outstanding_edges_ edge_id = some edge)
    (hlen : md5s.length = edge.outputs_.length)
    (hconn : env.dcheck_is_on = true →
      (OrdMap.find s.slave_info_id_map_ connection_id).isSome = true) :
    ∃ s1 host,
      OnRemoteCommandDone env s connection_id edge_id ExitStatus.ExitSuccess output md5s =
        Except.ok s1 ∧
      s1.outstanding_edges_ = OrdMap.erase s.outstanding_edges_ edge_id ∧
      OrdMap.find s1.outstanding_edges_ edge_id = none ∧
      s1.posted = s.posted ++
        [Posted.FetchTargetsOnBlockingPool host (outputs_manifest edge.outputs_ md5s)
          { edge := edge, status := ExitStatus.ExitSuccess, output := output }] ∧
      (outputs_manifest edge.outputs_ md5s).length = edge.outputs_.length ∧
      (outputs_manifest edge.outputs_ md5s).map (fun t => t.1) = edge.outputs_ ∧
      (outputs_manifest edge.outputs_ md5s).map (fun t => t.2) = md5s := by
  refine ⟨_, _, OnRemoteCommandDone_success env s connection_id edge_id output md5s edge
    hfind hlen hconn, rfl, OrdMap.find_erase_self _ _, rfl, ?_, ?_, ?_⟩
  · simp [outputs_manifest, List.length_zip, hlen]
  · have h := List.map_fst_zip edge.outputs_ md5s (le_of_eq hlen.symm)
    simpa [outputs_manifest] using h
  · have h := List.map_snd_zip edge.outputs_ md5s (le_of_eq hlen)
    simpa [outputs_manifest] using h

/-- C10 (instance): the completion of `sample_edge` on connection 1 with the
MD5s `m1`, `m2`, in a state where the edge is outstanding. -/
theorem C10_success_completion_posts_one_fetch_job_witness :
    ∃ s, run sample_env every_event sample_remote_dispatch (init (some 1) 1) = Except.ok s ∧
      OrdMap.find s.outstanding_edges_ 9 = some sample_edge ∧
      ∃ s1 host,
        OnRemoteCommandDone sample_env s 1 9 ExitStatus.ExitSuccess "done" ["m1", "m2"] =
          Except.ok s1 ∧
        s1.outstanding_edges_ = OrdMap.erase s.outstanding_edges_ 9 ∧
        OrdMap.find s1.outstanding_edges_ 9 = none ∧
        s1.posted = s.posted ++
          [Posted.FetchTargetsOnBlockingPool host
            (outputs_manifest sample_edge.outputs_ ["m1", "m2"])
            { edge := sample_edge, status := ExitStatus.ExitSuccess, output := "done" }] ∧
        (outputs_manifest sample_edge.outputs_ ["m1", "m2"]).length =
          sample_edge.outputs_.length ∧
        (outputs_manifest sample_edge.outputs_ ["m1", "m2"]).map (fun t => t.1) =
          sample_edge.outputs_ ∧
        (outputs_manifest sample_edge.outputs_ ["m1", "m2"]).map (fun t => t.2) =
          ["m1", "m2"] :=
  ⟨_, rfl, rfl,
    C10_success_completion_posts_one_fetch_job sample_env _ 1 9 "done" ["m1", "m2"]
      sample_edge rfl rfl (fun _ => rfl)⟩

/-- C9 (counterexample): `sample_edge` is dispatched to slave 1 and is in the
outstanding map under id 9; its successful completion is handled and the fetch
job then fails on an MD5 mismatch without posting anything; afterwards the
outstanding map does not contain id 9. -/
theorem C9_failed_fetch_edge_not_outstanding :
    ∃ s0 s1,
      run sample_env every_event sample_remote_dispatch (init (some 1) 1) = Except.ok s0 ∧
      OrdMap.find s0.outstanding_edges_ 9 = some sample_edge ∧
      run sample_env every_event
        [Event.RemoteCommandDone 1 9 ExitStatus.ExitSuccess "done" ["m1", "m2"],
         Event.FetchTargets "10.0.0.7:8080" sample_targets sample_result sample_Get_bad]
        s0 = Except.ok s1 ∧
      (FetchTargetsOnBlockingPool sample_Get_bad "10.0.0.7:8080" sample_targets
        sample_result).posted = [] ∧
      OrdMap.find s1.outstanding_edges_ 9 = none :=
  ⟨_, _, rfl, rfl, rfl, rfl, rfl⟩

/-- C9 (amended): for every outstanding edge whose remote command succeeds but
whose artifact fetch fails on an MD5 mismatch, the fetch job posts nothing (no
`OnFetchTargetsDone`, so the edge is not finished) and leaves the driver state
as it is, and after `OnRemoteCommandDone` followed by the failed fetch the
outstanding map no longer contains the `edge_id`, which `OnRemoteCommandDone`
erased before it posted the fetch job; after a remote-execution failure, in
contrast, the outstanding map still contains the `edge_id`. -/
theorem C9_failed_fetch_after_remote_success (env : Env) (s : MasterMainRunner)
    (connection_id : Int) (edge_id : Nat) (output : String) (md5s : List String)
    (edge : Edge) (Get : String → String → String)
    (hfind : OrdMap.find s.outstanding_edges_ edge_id = some edge)
    (hlen : md5s.length = edge.outputs_.length)
    (hconn : env.dcheck_is_on = true →
      (OrdMap.find s.slave_info_id_map_ connection_id).isSome = true) :
    (∃ s1 host,
      OnRemoteCommandDone env s connection_id edge_id ExitStatus.ExitSuccess output md5s =
        Except.ok s1 ∧
      s1.posted = s.posted ++
        [Posted.FetchTargetsOnBlockingPool host (outputs_manifest edge.outputs_ md5s)
          { edge := edge, status := ExitStatus.ExitSuccess, output := output }] ∧
      OrdMap.find s1.outstanding_edges_ edge_id = none ∧
      ((∃ t ∈ outputs_manifest edge.outputs_ md5s, Get (expected_get host t).1 t.1 ≠ t.2) →
        (FetchTargetsOnBlockingPool Get host (outputs_manifest edge.outputs_ md5s)
          { edge := edge, status := ExitStatus.ExitSuccess, output := output }).posted = [] ∧
        step env s1 (Event.FetchTargets host (outputs_manifest edge.outputs_ md5s)
          { edge := edge, status := ExitStatus.ExitSuccess, output := output } Get) =
          Except.ok s1)) ∧
    (∀ status, status ≠ ExitStatus.ExitSuccess →
      ∃ s2, OnRemoteCommandDone env s connection_id edge_id status output md5s =
          Except.ok s2 ∧
        OrdMap.find s2.outstanding_edges_ edge_id = some edge) := by
  constructor
  · refine ⟨_, _, OnRemoteCommandDone_success env s connection_id edge_id output md5s edge
      hfind hlen hconn, rfl, OrdMap.find_erase_self _ _, ?_⟩
    intro hbad
    have hloop := fetch_loop_some_mismatch Get _ (outputs_manifest edge.outputs_ md5s) false
      (by simpa [expected_get, kHttp] using hbad)
    have hposted : (FetchTargetsOnBlockingPool Get
        ((match OrdMap.find s.slave_info_id_map_ connection_id with
          | some info => info
          | none => SlaveInfo.default).ip ++ ":" ++ "8080")
        (outputs_manifest edge.outputs_ md5s)
        { edge := edge, status := ExitStatus.ExitSuccess, output := output }).posted = [] := by
      unfold FetchTargetsOnBlockingPool
      simp [Result.success, hloop]
    refine ⟨hposted, ?_⟩
    simp only [step, hposted, List.append_nil]
    rw [if_pos]
    simp [outputs_manifest]
  · intro status hst
    exact ⟨_, OnRemoteCommandDone_failure env s connection_id edge_id status output md5s hst,
      hfind⟩

/-- C9 (instance): `sample_edge` completes on connection 1 and the server
answers `m1` for every file, while `out/b.o` was reported as `m2`. -/
theorem C9_failed_fetch_after_remote_success_witness :
    ∃ s, run sample_env every_event sample_remote_dispatch (init (some 1) 1) = Except.ok s ∧
      OrdMap.find s.outstanding_edges_ 9 = some sample_edge ∧
      ((∃ s1 host,
        OnRemoteCommandDone sample_env s 1 9 ExitStatus.ExitSuccess "done" ["m1", "m2"] =
          Except.ok s1 ∧
        s1.posted = s.posted ++
          [Posted.FetchTargetsOnBlockingPool host
            (outputs_manifest sample_edge.outputs_ ["m1", "m2"])
            { edge := sample_edge, status := ExitStatus.ExitSuccess, output := "done" }] ∧
        OrdMap.find s1.outstanding_edges_ 9 = none ∧
        ((∃ t ∈ outputs_manifest sample_edge.outputs_ ["m1", "m2"],
            sample_Get_bad (expected_get host t).1 t.1 ≠ t.2) →
          (FetchTargetsOnBlockingPool sample_Get_bad host
            (outputs_manifest sample_edge.outputs_ ["m1", "m2"])
            { edge := sample_edge, status := ExitStatus.ExitSuccess,
              output := "done" }).posted = [] ∧
          step sample_env s1 (Event.FetchTargets host
            (outputs_manifest sample_edge.outputs_ ["m1", "m2"])
            { edge := sample_edge, status := ExitStatus.ExitSuccess, output := "done" }
            sample_Get_bad) = Except.ok s1)) ∧
       (∀ status, status ≠ ExitStatus.ExitSuccess →
        ∃ s2, OnRemoteCommandDone sample_env s 1 9 status "done" ["m1", "m2"] =
            Except.ok s2 ∧
          OrdMap.find s2.outstanding_edges_ 9 = some sample_edge)) :=
  ⟨_, rfl, rfl,
    C9_failed_fetch_after_remote_success sample_env _ 1 9 "done" ["m1", "m2"] sample_edge
      sample_Get_bad rfl rfl (fun _ => rfl)⟩

/-! ## Lemmas on the dispatch handlers -/

theorem static_cast_int_of_lt (n : Nat) (h : n < 2147483648) : static_cast_int n = n := by
  unfold static_cast_int
  omega

theorem OrdMap.length_insert_le {κ α : Type} [DecidableEq κ] [LT κ]
    [DecidableRel (fun (a b : κ) => a < b)] (m : OrdMap κ α) (k : κ) (v : α) :
    (OrdMap.insert m k v).length ≤ m.length + 1 := by
  induction m with
  | nil => simp [OrdMap.insert]
  | cons kv rest ih =>
    obtain ⟨k1, v1⟩ := kv
    unfold OrdMap.insert
    split
    · simp
    · split
      · simp
      · simp only [List.length_cons]
        omega

theorem OrdMap.length_erase_le {κ α : Type} [DecidableEq κ] (m : OrdMap κ α) (k : κ) :
    (OrdMap.erase m k).length ≤ m.length :=
  List.length_filter_le _ _

theorem DoWork_count (o : DoWorkOutcome) (ss : SubprocessSet) :
    (SubprocessSet.DoWork o ss).2.running_.length + (SubprocessSet.DoWork o ss).2.finished_.length
      = ss.running_.length + ss.finished_.length := by
  unfold SubprocessSet.DoWork
  simp only [List.length_append]
  have h : ∀ l : List Subprocess,
      (l.filter (fun p => (OrdMap.find o.ended p.id).isNone)).length +
      (l.filterMap (fun p =>
        match OrdMap.find o.ended p.id with
        | some r => some { p with status := r.1, output := r.2 }
        | none => none)).length = l.length := by
    intro l
    induction l with
    | nil => rfl
    | cons p rest ih =>
      cases hf : OrdMap.find o.ended p.id with
      | none =>
        simp only [List.filter_cons, hf, Option.isNone_none, if_true, List.filterMap_cons,
          List.length_cons]
        omega
      | some r =>
        simp only [List.filter_cons, hf, Option.isNone_some, Bool.false_eq_true, if_false,
          List.filterMap_cons, List.length_cons]
        omega
  have := h ss.running_
  omega

theorem WaitForCommand_collect_frame (s s1 : MasterMainRunner) (subproc : Subprocess)
    (ss : SubprocessSet) (out : WaitOutcome)
    (h : WaitForCommand_collect s subproc ss = Except.ok (out, s1)) :
    s1 = { s with subprocs_ := ss,
                  subproc_to_edge_ := OrdMap.erase s.subproc_to_edge_ subproc.id } := by
  unfold WaitForCommand_collect at h
  split at h
  · exact absurd h (by simp)
  · simp only [Except.ok.injEq, Prod.mk.injEq] at h
    exact h.2.symm

theorem NextFinished_count (ss : SubprocessSet) (p : Subprocess)
    (h : (SubprocessSet.NextFinished ss).1 = some p) :
    (SubprocessSet.NextFinished ss).2.running_.length +
      (SubprocessSet.NextFinished ss).2.finished_.length + 1 =
      ss.running_.length + ss.finished_.length := by
  unfold SubprocessSet.NextFinished at h ⊢
  cases hfin : ss.finished_ with
  | nil => simp [hfin] at h
  | cons q rest => simp [hfin]; omega

/-- The call `WaitForCommand` touches the subprocess set and the map from
subprocesses to edges only, and does not raise the number of local subprocesses. -/
theorem WaitForCommand_frame (observed : List DoWorkOutcome) :
    ∀ (s s1 : MasterMainRunner) (out : WaitOutcome),
      WaitForCommand observed s = Except.ok (out, s1) →
      s1 = { s with subprocs_ := s1.subprocs_, subproc_to_edge_ := s1.subproc_to_edge_ } ∧
      local_count s1 ≤ local_count s := by
  induction observed with
  | nil =>
    intro s s1 out h
    unfold WaitForCommand at h
    split at h
    · rename_i p hp
      have h1 := WaitForCommand_collect_frame s s1 p _ out h
      have h2 := NextFinished_count s.subprocs_ p hp
      subst h1
      refine ⟨rfl, ?_⟩
      simp only [local_count]
      omega
    · simp only [Except.ok.injEq, Prod.mk.injEq] at h
      obtain ⟨_, rfl⟩ := h
      exact ⟨rfl, le_refl _⟩
  | cons o rest ih =>
    intro s s1 out h
    unfold WaitForCommand at h
    split at h
    · rename_i p hp
      have h1 := WaitForCommand_collect_frame s s1 p _ out h
      have h2 := NextFinished_count s.subprocs_ p hp
      subst h1
      refine ⟨rfl, ?_⟩
      simp only [local_count]
      omega
    · have hc := DoWork_count o s.subprocs_
      split at h
      · simp only [Except.ok.injEq, Prod.mk.injEq] at h
        obtain ⟨_, rfl⟩ := h
        refine ⟨rfl, ?_⟩
        simp only [local_count]
        omega
      · obtain ⟨h1, h2⟩ := ih _ s1 out h
        simp only [local_count] at h2 ⊢
        constructor
        · rw [h1]
        · omega

theorem DCHECK_ok_or_error (env : Env) (cond : Bool) :
    DCHECK env cond = Except.ok () ∨ DCHECK env cond = Except.error Fault.dcheck_failed := by
  unfold DCHECK
  split
  · exact Or.inr rfl
  · exact Or.inl rfl

/-- The shape of the state after any call of `OnRemoteCommandDone` that runs to its end. -/
theorem OnRemoteCommandDone_ok (env : Env) (s s1 : MasterMainRunner) (connection_id : Int)
    (edge_id : Nat) (status : ExitStatus) (output : String) (md5s : List String)
    (h : OnRemoteCommandDone env s connection_id edge_id status output md5s = Except.ok s1) :
    (status ≠ ExitStatus.ExitSuccess ∧
      s1 = { s with pending_remote_commands_ := s.pending_remote_commands_ - 1 }) ∨
    (status = ExitStatus.ExitSuccess ∧
      ∃ edge targets host registry,
        OrdMap.find s.outstanding_edges_ edge_id = some edge ∧
        s1 = { s with
          pending_remote_commands_ := s.pending_remote_commands_ - 1
          outstanding_edges_ := OrdMap.erase s.outstanding_edges_ edge_id
          slave_info_id_map_ := registry
          posted := s.posted ++
            [Posted.FetchTargetsOnBlockingPool host targets
              { edge := edge, status := status, output := output }] }) := by
  by_cases hst : status = ExitStatus.ExitSuccess
  · right
    refine ⟨hst, ?_⟩
    cases hf : OrdMap.find s.outstanding_edges_ edge_id with
    | none =>
      rw [hst, OnRemoteCommandDone_unknown_edge env s connection_id edge_id output md5s hf] at h
      exact absurd h (by simp)
    | some edge =>
      unfold OnRemoteCommandDone at h
      simp only [hst, ne_eq, not_true_eq_false, if_false] at h
      simp only [hf] at h
      rcases DCHECK_ok_or_error env (some edge).isSome with hd | hd
      · rw [hd] at h
        simp only [bind, Except.bind] at h
        rcases DCHECK_ok_or_error env (decide (edge.outputs_.length = md5s.length))
          with hd2 | hd2
        · rw [hd2] at h
          simp only at h
          cases hm : make_targets edge.outputs_ md5s with
          | none => simp [hm] at h
          | some targets =>
            simp only [hm] at h
            rcases DCHECK_ok_or_error env
              (OrdMap.find s.slave_info_id_map_ connection_id).isSome with hd3 | hd3
            · rw [hd3] at h
              simp only [pure, Except.pure, Except.ok.injEq] at h
              exact ⟨edge, targets, _, _, rfl, by rw [← h, hst]⟩
            · rw [hd3] at h
              exact absurd h (by simp)
        · rw [hd2] at h
          exact absurd h (by simp)
      · rw [hd] at h
        exact absurd h (by simp [bind, Except.bind])
  · left
    refine ⟨hst, ?_⟩
    rw [OnRemoteCommandDone_failure env s connection_id edge_id status output md5s hst] at h
    simp only [Except.ok.injEq] at h
    exact h.symm

/-! ## C4: the bound on commands in flight -/

/-- The two ways `StartCommandLocally` ends: it refuses and leaves the state as
it is, or it adds one running subprocess with a fresh identity. -/
theorem StartCommandLocally_cases (os : LocalOutcome) (s : MasterMainRunner) (edge : Edge) :
    StartCommandLocally os s edge = (false, s) ∨
    StartCommandLocally os s edge =
      (true,
        { s with
          subprocs_ :=
            { s.subprocs_ with
              running_ := s.subprocs_.running_ ++
                [{ id := s.next_subproc, command := edge.command,
                   use_console := edge.use_console, status := ExitStatus.ExitFailure,
                   output := "" }] }
          next_subproc := s.next_subproc + 1
          subproc_to_edge_ := OrdMap.insertNew s.subproc_to_edge_ s.next_subproc edge }) := by
  unfold StartCommandLocally
  by_cases h1 : (!(edge.outputs_.all os.CreateDirectory)) = true
  · rw [if_pos h1]
    exact Or.inl rfl
  · rw [if_neg h1]
    by_cases h2 : (!(edge.rspfile.isEmpty) &&
        !(os.WriteFile edge.rspfile edge.rspfile_content)) = true
    · rw [if_pos h2]
      exact Or.inl rfl
    · rw [if_neg h2]
      unfold SubprocessSet.Add
      by_cases h3 : os.Start edge.command edge.use_console = true
      · rw [if_pos h3]
        exact Or.inr rfl
      · rw [if_neg h3]
        exact Or.inl rfl

/-- The two ways `StartCommandRemotely` ends: it refuses and leaves the state
as it is, or it records the edge under its id, posts the command to the slave
that `FindMostAvailableSlave` chose and counts one more pending command. -/
theorem StartCommandRemotely_cases (env : Env) (s : MasterMainRunner) (edge : Edge) :
    (FindMostAvailableSlave s = INT_MIN ∧ StartCommandRemotely env s edge = (false, s)) ∨
    (FindMostAvailableSlave s ≠ INT_MIN ∧
     StartCommandRemotely env s edge =
      (true,
        { s with
          outstanding_edges_ :=
            OrdMap.insert s.outstanding_edges_ (env.Hash edge.command % 4294967296) edge
          posted := s.posted ++ [Posted.StartCommandRemotely (FindMostAvailableSlave s)
            edge.outputs_ edge.rspfile edge.rspfile_content edge.command
            (env.Hash edge.command % 4294967296)]
          pending_remote_commands_ := s.pending_remote_commands_ + 1 })) := by
  by_cases h : FindMostAvailableSlave s = INT_MIN
  · refine Or.inl ⟨h, ?_⟩
    unfold StartCommandRemotely
    simp only [h, if_true]
  · refine Or.inr ⟨h, ?_⟩
    unfold StartCommandRemotely
    simp only [h, if_false]

theorem OrdMap.mem_of_find {κ α : Type} [DecidableEq κ] {m : OrdMap κ α} {k : κ} {v : α}
    (h : OrdMap.find m k = some v) : (k, v) ∈ m := by
  induction m with
  | nil => simp [OrdMap.find] at h
  | cons kv rest ih =>
    obtain ⟨k1, v1⟩ := kv
    unfold OrdMap.find at h
    split at h
    · rename_i hk
      simp only [Option.some.injEq] at h
      rw [← hk, ← h]
      exact List.mem_cons_self _ _
    · exact List.mem_cons_of_mem _ (ih h)

theorem Quiet_refl (s : MasterMainRunner) : Quiet s s :=
  ⟨rfl, [], (List.append_nil _).symm, fun _ h => absurd h (List.not_mem_nil _)⟩

theorem Quiet_trans {s s1 s2 : MasterMainRunner} (h1 : Quiet s s1) (h2 : Quiet s1 s2) :
    Quiet s s2 := by
  obtain ⟨ho1, e1, hp1, hq1⟩ := h1
  obtain ⟨ho2, e2, hp2, hq2⟩ := h2
  refine ⟨ho2.trans ho1, e1 ++ e2, ?_, ?_⟩
  · rw [hp2, hp1, List.append_assoc]
  · intro p hp
    rcases List.mem_append.1 hp with h | h
    · exact hq1 p h
    · exact hq2 p h

theorem Fetched_append_quiet (posted extra : List Posted) (edge : Edge)
    (hq : ∀ p ∈ extra, p.is_fetch_related = false) :
    Fetched (posted ++ extra) edge ↔ Fetched posted edge := by
  constructor
  · rintro ⟨host, targets, result, hmem, hedge⟩
    rcases List.mem_append.1 hmem with h | h
    · exact ⟨host, targets, result, h, hedge⟩
    · exact absurd (hq _ h) (by simp [Posted.is_fetch_related])
  · rintro ⟨host, targets, result, hmem, hedge⟩
    exact ⟨host, targets, result, List.mem_append_left _ hmem, hedge⟩

theorem Fetched_mono (posted extra : List Posted) (edge : Edge)
    (h : Fetched posted edge) : Fetched (posted ++ extra) edge := by
  obtain ⟨host, targets, result, hmem, hedge⟩ := h
  exact ⟨host, targets, result, List.mem_append_left _ hmem, hedge⟩

theorem FetchInv_of_Quiet (env : Env) (s s1 : MasterMainRunner) (hq : Quiet s s1)
    (hs : FetchInv env s) : FetchInv env s1 := by
  obtain ⟨ho, extra, hp, hextra⟩ := hq
  obtain ⟨h0, h1, h2, h3⟩ := hs
  unfold FetchInv
  rw [ho, hp]
  refine ⟨h0, ?_, ?_, ?_⟩
  · intro entry he hf
    exact h1 entry he ((Fetched_append_quiet _ _ _ hextra).1 hf)
  · intro result hr
    rcases List.mem_append.1 hr with h | h
    · exact Fetched_mono _ _ _ (h2 result h)
    · exact absurd (hextra _ h) (by simp [Posted.is_fetch_related])
  · intro result hr
    rcases List.mem_append.1 hr with h | h
    · exact Fetched_mono _ _ _ (h3 result h)
    · exact absurd (hextra _ h) (by simp [Posted.is_fetch_related])

theorem Quiet_StartBuild (env : Env) (s : MasterMainRunner) : Quiet s (StartBuild env s) := by
  unfold StartBuild
  split
  · exact Quiet_refl s
  · refine ⟨rfl, [Posted.RunBuild], rfl, ?_⟩
    intro p hp
    rw [List.mem_singleton.1 hp]
    rfl

theorem Quiet_OnSlaveSystemInfoAvailable (env : Env) (s : MasterMainRunner) (c : Int)
    (info : SlaveInfo) : Quiet s (OnSlaveSystemInfoAvailable env s c info) := by
  unfold OnSlaveSystemInfoAvailable
  split
  · exact Quiet_refl s
  · split
    · refine ⟨rfl, [Posted.QuitSlave c (kRejectReason env)], rfl, ?_⟩
      intro p hp
      rw [List.mem_singleton.1 hp]
      rfl
    · have hbase : Quiet s
          { s with
            slave_info_id_map_ := OrdMap.insert s.slave_info_id_map_ c info
            number_of_slave_processors_ :=
              add_slave_processors s.number_of_slave_processors_ info.number_of_processors } :=
        ⟨rfl, [], (List.append_nil _).symm, fun _ h => absurd h (List.not_mem_nil _)⟩
      simp only
      split
      · exact Quiet_trans hbase (Quiet_StartBuild env _)
      · exact hbase

theorem Quiet_of_fields (s s1 : MasterMainRunner)
    (ho : s1.outstanding_edges_ = s.outstanding_edges_) (hp : s1.posted = s.posted) :
    Quiet s s1 :=
  ⟨ho, [], by rw [hp, List.append_nil], fun _ h => absurd h (List.not_mem_nil _)⟩

theorem not_Fetched_of_fetch_posted_for (s : MasterMainRunner) (edge : Edge)
    (h : fetch_posted_for s edge = false) : ¬ Fetched s.posted edge := by
  rintro ⟨host, targets, result, hmem, hedge⟩
  unfold fetch_posted_for at h
  rw [List.any_eq_false] at h
  have := h _ hmem
  simp [hedge] at this

theorem FetchTargetsOnBlockingPool_posted (Get : String → String → String) (host : String)
    (targets : List (String × String)) (result : Result) :
    (FetchTargetsOnBlockingPool Get host targets result).posted = [] ∨
    (FetchTargetsOnBlockingPool Get host targets result).posted =
      [Posted.OnFetchTargetsDone result] := by
  unfold FetchTargetsOnBlockingPool
  by_cases h : (if result.success = true then fetch_loop Get host targets false
      else (false, [])).1 = true
  · exact Or.inr (by simp only [h, if_true])
  · exact Or.inl (by simp only [h, Bool.false_eq_true, if_false])

theorem fetch_step (env : Env) (s s1 : MasterMainRunner) (ev : Event)
    (hs : FetchInv env s) (ha : no_remote_redispatch s ev = true)
    (hst : step env s ev = Except.ok s1) : FetchInv env s1 := by
  cases ev with
  | StartBuild =>
    simp only [step, Except.ok.injEq] at hst
    subst hst
    exact FetchInv_of_Quiet env s _ (Quiet_StartBuild env s) hs
  | SlaveSystemInfoAvailable c info =>
    simp only [step, Except.ok.injEq] at hst
    subst hst
    exact FetchInv_of_Quiet env s _ (Quiet_OnSlaveSystemInfoAvailable env s c info) hs
  | SlaveStatusUpdate c l r m =>
    simp only [step, Except.ok.injEq] at hst
    subst hst
    refine FetchInv_of_Quiet env s _ (Quiet_of_fields s _ ?_ ?_) hs
    · unfold OnSlaveStatusUpdate; split <;> rfl
    · unfold OnSlaveStatusUpdate; split <;> rfl
  | SlaveClose c =>
    simp only [step] at hst
    have h1 := OnSlaveClose_ok env s s1 c hst
    subst h1
    exact FetchInv_of_Quiet env s _ (Quiet_of_fields s _ rfl rfl) hs
  | StartCommand edge run_in_local os =>
    simp only [step, Except.ok.injEq] at hst
    subst hst
    unfold StartCommand
    by_cases hl : (run_in_local || OrdMap.empty s.slave_info_id_map_) = true
    · rw [if_pos hl]
      rcases StartCommandLocally_cases os s edge with hr | hr
      · rw [hr]; exact hs
      · rw [hr]
        exact FetchInv_of_Quiet env s _ (Quiet_of_fields s _ rfl rfl) hs
    · rw [if_neg hl]
      rcases StartCommandRemotely_cases env s edge with ⟨_, hr⟩ | ⟨_, hr⟩
      · rw [hr]; exact hs
      · rw [hr]
        have hnf : ¬ Fetched s.posted edge := by
          apply not_Fetched_of_fetch_posted_for
          simp only [no_remote_redispatch, Bool.or_eq_true, Bool.not_eq_true_eq_eq_false] at ha
          rcases ha with (h | h) | h
          · exact absurd (by simp [h]) hl
          · exact absurd (by simp [h]) hl
          · exact h
        obtain ⟨h0, h1, h2, h3⟩ := hs
        have hquiet : ∀ p ∈ [Posted.StartCommandRemotely (FindMostAvailableSlave s)
            edge.outputs_ edge.rspfile edge.rspfile_content edge.command
            (env.Hash edge.command % 4294967296)], p.is_fetch_related = false := by
          intro p hp
          rw [List.mem_singleton.1 hp]
          rfl
        refine ⟨?_, ?_, ?_, ?_⟩
        · intro entry he
          rcases OrdMap.mem_insert he with h | h
          · rw [h]
          · exact h0 entry h
        · intro entry he hf
          have hf1 := (Fetched_append_quiet _ _ _ hquiet).1 hf
          rcases OrdMap.mem_insert he with h | h
          · rw [h] at hf1; exact hnf hf1
          · exact h1 entry h hf1
        · intro result hr1
          rcases List.mem_append.1 hr1 with h | h
          · exact Fetched_mono _ _ _ (h2 result h)
          · exact absurd (hquiet _ h) (by simp [Posted.is_fetch_related])
        · intro result hr1
          rcases List.mem_append.1 hr1 with h | h
          · exact Fetched_mono _ _ _ (h3 result h)
          · exact absurd (hquiet _ h) (by simp [Posted.is_fetch_related])
  | WaitForCommand observed =>
    simp only [step] at hst
    cases hw : MasterMainRunner.WaitForCommand observed s with
    | error f => rw [hw] at hst; exact absurd hst (by simp)
    | ok r =>
      rw [hw] at hst
      simp only [Except.ok.injEq] at hst
      obtain ⟨out, s2⟩ := r
      simp only at hst
      subst hst
      obtain ⟨hfr, _⟩ := WaitForCommand_frame observed s s2 out hw
      rw [hfr]
      exact FetchInv_of_Quiet env s _ (Quiet_of_fields s _ rfl rfl) hs
  | Abort =>
    simp only [step, Except.ok.injEq] at hst
    subst hst
    exact FetchInv_of_Quiet env s _ (Quiet_of_fields s _ rfl rfl) hs
  | RemoteCommandDone c edge_id status output md5s =>
    simp only [step] at hst
    rcases OnRemoteCommandDone_ok env s s1 c edge_id status output md5s hst with
      ⟨_, hr⟩ | ⟨_, edge, targets, host, registry, hfind, hr⟩
    · subst hr
      exact FetchInv_of_Quiet env s _ (Quiet_of_fields s _ rfl rfl) hs
    · subst hr
      obtain ⟨h0, h1, h2, h3⟩ := hs
      have hkey : edge_id = env.Hash edge.command % 4294967296 :=
        h0 _ (OrdMap.mem_of_find hfind)
      refine ⟨?_, ?_, ?_, ?_⟩
      · intro entry he
        exact h0 entry (OrdMap.mem_erase he).1
      · intro entry he hf
        obtain ⟨hmem, hne⟩ := OrdMap.mem_erase he
        obtain ⟨host1, targets1, result1, hm, hedge⟩ := hf
        rcases List.mem_append.1 hm with h | h
        · exact h1 entry hmem ⟨host1, targets1, result1, h, hedge⟩
        · have heq := List.mem_singleton.1 h
          simp only [Posted.FetchTargetsOnBlockingPool.injEq] at heq
          have hedge2 : edge = entry.2 := by rw [← hedge, heq.2.2]
          apply hne
          rw [h0 entry hmem, ← hedge2, ← hkey]
      · intro result hr1
        rcases List.mem_append.1 hr1 with h | h
        · exact Fetched_mono _ _ _ (h2 result h)
        · exact absurd (List.mem_singleton.1 h) (by simp)
      · intro result hr1
        rcases List.mem_append.1 hr1 with h | h
        · exact Fetched_mono _ _ _ (h3 result h)
        · exact absurd (List.mem_singleton.1 h) (by simp)
  | FetchTargets host targets result Get =>
    simp only [step] at hst
    split at hst
    · rename_i hjob
      simp only [Except.ok.injEq] at hst
      subst hst
      obtain ⟨h0, h1, h2, h3⟩ := hs
      rcases FetchTargetsOnBlockingPool_posted Get host targets result with hp | hp
      · rw [hp]
        exact FetchInv_of_Quiet env s _ (Quiet_of_fields s _ rfl (List.append_nil _)) ⟨h0, h1, h2, h3⟩
      · rw [hp]
        have hquiet : ∀ p ∈ [Posted.OnFetchTargetsDone result],
            p ≠ Posted.FetchTargetsOnBlockingPool host targets result := by
          intro p hp1
          rw [List.mem_singleton.1 hp1]
          simp
        have hsame : ∀ e, Fetched (s.posted ++ [Posted.OnFetchTargetsDone result]) e →
            Fetched s.posted e := by
          rintro e ⟨host1, targets1, result1, hm, hedge⟩
          rcases List.mem_append.1 hm with h | h
          · exact ⟨host1, targets1, result1, h, hedge⟩
          · exact absurd (List.mem_singleton.1 h) (by simp)
        refine ⟨h0, fun entry he hf => h1 entry he (hsame _ hf), ?_, ?_⟩
        · intro result1 hr1
          rcases List.mem_append.1 hr1 with h | h
          · exact Fetched_mono _ _ _ (h2 result1 h)
          · have heq := List.mem_singleton.1 h
            simp only [Posted.OnFetchTargetsDone.injEq] at heq
            rw [heq]
            exact ⟨host, targets, result, List.mem_append_left _ hjob, rfl⟩
        · intro result1 hr1
          rcases List.mem_append.1 hr1 with h | h
          · exact Fetched_mono _ _ _ (h3 result1 h)
          · exact absurd (List.mem_singleton.1 h) (by simp)
    · exact absurd hst (by simp)
  | FetchTargetsDone result has_run_locally =>
    simp only [step] at hst
    split at hst
    · rename_i hdone
      simp only [Except.ok.injEq] at hst
      subst hst
      unfold OnFetchTargetsDone
      split
      · obtain ⟨h0, h1, h2, h3⟩ := hs
        have hsame : ∀ e, Fetched (s.posted ++ [Posted.FinishCommand result]) e →
            Fetched s.posted e := by
          rintro e ⟨host1, targets1, result1, hm, hedge⟩
          rcases List.mem_append.1 hm with h | h
          · exact ⟨host1, targets1, result1, h, hedge⟩
          · exact absurd (List.mem_singleton.1 h) (by simp)
        refine ⟨h0, fun entry he hf => h1 entry he (hsame _ hf), ?_, ?_⟩
        · intro result1 hr1
          rcases List.mem_append.1 hr1 with h | h
          · exact Fetched_mono _ _ _ (h2 result1 h)
          · exact absurd (List.mem_singleton.1 h) (by simp)
        · intro result1 hr1
          rcases List.mem_append.1 hr1 with h | h
          · exact Fetched_mono _ _ _ (h3 result1 h)
          · have heq := List.mem_singleton.1 h
            simp only [Posted.FinishCommand.injEq] at heq
            rw [heq]
            exact Fetched_mono _ _ _ (h2 result hdone)
      · exact hs
    · exact absurd hst (by simp)

theorem FetchInv_init (env : Env) (max_slave_amount : Option Nat) (par : Int) :
    FetchInv env (init max_slave_amount par) := by
  refine ⟨?_, ?_, ?_, ?_⟩ <;> intro x hx <;> simp [init] at hx

/-- C5 (counterexample): the remote run of `sample_edge` fails, so its entry
stays in the outstanding map; the edge is then run locally and `WaitForCommand`
returns it with status success; the outstanding map still holds the entry of
this finished edge. -/
theorem C5_locally_finished_edge_stays_outstanding :
    ∃ s s1,
      run sample_env no_remote_redispatch sample_local_retry (init (some 1) 1) =
        Except.ok s ∧
      WaitForCommand [sample_subprocess_0_ends] s =
        Except.ok
          (WaitOutcome.returned_true
            { edge := sample_edge, status := ExitStatus.ExitSuccess, output := "ok" }, s1) ∧
      OrdMap.find s1.outstanding_edges_ 9 = some sample_edge :=
  ⟨_, _, rfl, rfl, rfl⟩

/-- C5 (amended): in every state reachable from the initial state by any
sequence of events in which no edge is dispatched to a slave again after a
remote run of it has ended with success, the outstanding map contains no entry
for an edge that was finished through `OnFetchTargetsDone`; a finish through
`WaitForCommand` after a local run leaves the outstanding map as it is. -/
theorem C5_remotely_finished_edge_not_outstanding (env : Env)
    (max_slave_amount : Option Nat) (par : Int) (evs : List Event) (s : MasterMainRunner)
    (h : run env no_remote_redispatch evs (init max_slave_amount par) = Except.ok s) :
    (∀ result, Posted.FinishCommand result ∈ s.posted →
      ∀ entry ∈ s.outstanding_edges_, entry.2 ≠ result.edge) ∧
    (∀ observed out s1, WaitForCommand observed s = Except.ok (out, s1) →
      s1.outstanding_edges_ = s.outstanding_edges_) := by
  have hinv := run_invariant env no_remote_redispatch (FetchInv env)
    (fun s ev s1 hs ha hst => fetch_step env s s1 ev hs ha hst)
    evs _ s (FetchInv_init env max_slave_amount par) h
  constructor
  · intro result hr entry he heq
    obtain ⟨_, h1, _, h3⟩ := hinv
    exact h1 entry he (heq ▸ h3 result hr)
  · intro observed out s1 hw
    have hfr := (WaitForCommand_frame observed s s1 out hw).1
    rw [hfr]

/-- C5 (instance): `sample_edge` runs on the slave, its artifacts are fetched
and `OnFetchTargetsDone` finishes it; the outstanding map is then empty. -/
theorem C5_remotely_finished_edge_not_outstanding_witness :
    ∃ s, run sample_env no_remote_redispatch sample_remote_finish (init (some 1) 1) =
        Except.ok s ∧
      Posted.FinishCommand sample_result ∈ s.posted ∧
      ((∀ result, Posted.FinishCommand result ∈ s.posted →
        ∀ entry ∈ s.outstanding_edges_, entry.2 ≠ result.edge) ∧
       (∀ observed out s1, WaitForCommand observed s = Except.ok (out, s1) →
        s1.outstanding_edges_ = s.outstanding_edges_)) :=
  ⟨_, rfl, by decide,
    C5_remotely_finished_edge_not_outstanding sample_env (some 1) 1 sample_remote_finish _
      rfl⟩

/-! ## C11: a failed remote completion -/

/-- C11: for every driver state and every call of `OnRemoteCommandDone` with a
status other than success, the handler runs to its end,
`pending_remote_commands_` decreases by exactly 1, the outstanding map (so the
edge stays in it), the slave registry and `number_of_slave_processors_` are
unchanged, and nothing is posted: no fetch job and no `FinishCommand`.  No
other field changes either. -/
theorem C11_failed_completion_only_decrements_pending (env : Env) (s : MasterMainRunner)
    (connection_id : Int) (edge_id : Nat) (status : ExitStatus) (output : String)
    (md5s : List String) (hstatus : status ≠ ExitStatus.ExitSuccess) :
    ∃ s1,
      OnRemoteCommandDone env s connection_id edge_id status output md5s = Except.ok s1 ∧
      s1.pending_remote_commands_ = s.pending_remote_commands_ - 1 ∧
      s1.outstanding_edges_ = s.outstanding_edges_ ∧
      s1.slave_info_id_map_ = s.slave_info_id_map_ ∧
      s1.number_of_slave_processors_ = s.number_of_slave_processors_ ∧
      s1.posted = s.posted ∧
      s1 = { s with pending_remote_commands_ := s.pending_remote_commands_ - 1 } :=
  ⟨_, OnRemoteCommandDone_failure env s connection_id edge_id status output md5s hstatus,
    rfl, rfl, rfl, rfl, rfl, rfl⟩

/-- C11 (instance): `sample_edge` is outstanding on slave 1 and its remote run
fails; the edge stays in the outstanding map and the counter drops from 1 to 0. -/
theorem C11_failed_completion_only_decrements_pending_witness :
    ∃ s, run sample_env every_event sample_remote_dispatch (init (some 1) 1) = Except.ok s ∧
      s.pending_remote_commands_ = 1 ∧
      OrdMap.find s.outstanding_edges_ 9 = some sample_edge ∧
      ExitStatus.ExitFailure ≠ ExitStatus.ExitSuccess ∧
      ∃ s1,
        OnRemoteCommandDone sample_env s 1 9 ExitStatus.ExitFailure "failed" [] =
          Except.ok s1 ∧
        s1.pending_remote_commands_ = s.pending_remote_commands_ - 1 ∧
        s1.outstanding_edges_ = s.outstanding_edges_ ∧
        s1.slave_info_id_map_ = s.slave_info_id_map_ ∧
        s1.number_of_slave_processors_ = s.number_of_slave_processors_ ∧
        s1.posted = s.posted ∧
        s1 = { s with pending_remote_commands_ := s.pending_remote_commands_ - 1 } :=
  ⟨_, rfl, rfl, rfl, by decide,
    C11_failed_completion_only_decrements_pending sample_env _ 1 9 ExitStatus.ExitFailure
      "failed" [] (by decide)⟩

/-! ## C12 and C13: remote dispatch -/

theorem OrdMap.find_insert_self {κ α : Type} [DecidableEq κ] [LT κ]
    [DecidableRel (fun (a b : κ) => a < b)] (m : OrdMap κ α) (k : κ) (v : α) :
    OrdMap.find (OrdMap.insert m k v) k = some v := by
  induction m with
  | nil => simp [OrdMap.insert, OrdMap.find]
  | cons kv rest ih =>
    obtain ⟨k1, v1⟩ := kv
    unfold OrdMap.insert
    by_cases h1 : k1 = k
    · rw [if_pos h1]
      simp [OrdMap.find]
    · rw [if_neg h1]
      by_cases h2 : k < k1
      · rw [if_pos h2]
        simp [OrdMap.find]
      · rw [if_neg h2]
        simp only [OrdMap.find, h1, if_false]
        exact ih

/-- C12: for every edge and every state in which `FindMostAvailableSlave`
yields a connection `c` (a value other than `INT_MIN`), `StartCommandRemotely`
returns true, maps `edge_id = Hash(command)` (a `uint32`) to the edge in the
outstanding map, increases `pending_remote_commands_` by exactly 1 and posts
exactly one task, the `RunCommand` for the RPC thread that carries `c`, the
output paths in declared order, the path and the contents of the response
file, the command and the `edge_id`; no other field of the driver changes. -/
theorem C12_remote_dispatch_records_and_posts (env : Env) (s : MasterMainRunner) (edge : Edge)
    (hc : FindMostAvailableSlave s ≠ INT_MIN) :
    StartCommandRemotely env s edge =
      (true,
        { s with
          outstanding_edges_ :=
            OrdMap.insert s.outstanding_edges_ (env.Hash edge.command % 4294967296) edge
          posted := s.posted ++ [Posted.StartCommandRemotely (FindMostAvailableSlave s)
            edge.outputs_ edge.rspfile edge.rspfile_content edge.command
            (env.Hash edge.command % 4294967296)]
          pending_remote_commands_ := s.pending_remote_commands_ + 1 }) ∧
    OrdMap.find (StartCommandRemotely env s edge).2.outstanding_edges_
      (env.Hash edge.command % 4294967296) = some edge ∧
    (StartCommandRemotely env s edge).2.pending_remote_commands_ =
      s.pending_remote_commands_ + 1 := by
  rcases StartCommandRemotely_cases env s edge with ⟨h, _⟩ | ⟨_, hr⟩
  · exact absurd h hc
  · refine ⟨hr, ?_, ?_⟩
    · rw [hr]
      exact OrdMap.find_insert_self _ _ _
    · rw [hr]

/-- C12 (instance): `sample_edge` is dispatched while slave 1 is registered. -/
theorem C12_remote_dispatch_records_and_posts_witness :
    ∃ s, run sample_env every_event [Event.SlaveSystemInfoAvailable 1 (sample_slave 4 0)]
        (init (some 1) 1) = Except.ok s ∧
      FindMostAvailableSlave s = 1 ∧
      FindMostAvailableSlave s ≠ INT_MIN ∧
      (StartCommandRemotely sample_env s sample_edge =
        (true,
          { s with
            outstanding_edges_ :=
              OrdMap.insert s.outstanding_edges_
                (sample_env.Hash sample_edge.command % 4294967296) sample_edge
            posted := s.posted ++ [Posted.StartCommandRemotely (FindMostAvailableSlave s)
              sample_edge.outputs_ sample_edge.rspfile sample_edge.rspfile_content
              sample_edge.command (sample_env.Hash sample_edge.command % 4294967296)]
            pending_remote_commands_ := s.pending_remote_commands_ + 1 }) ∧
       OrdMap.find (StartCommandRemotely sample_env s sample_edge).2.outstanding_edges_
         (sample_env.Hash sample_edge.command % 4294967296) = some sample_edge ∧
       (StartCommandRemotely sample_env s sample_edge).2.pending_remote_commands_ =
         s.pending_remote_commands_ + 1) :=
  ⟨_, rfl, rfl, by decide,
    C12_remote_dispatch_records_and_posts sample_env _ sample_edge (by decide)⟩

/-- C13 (counterexample): the registry holds one slave whose number of free
processors is `INT_MIN`, so `FindMostAvailableSlave` returns `INT_MIN`; the
call `StartCommand(edge, false)` returns false and changes nothing, although
`StartCommandLocally` would start the edge. -/
theorem C13_no_candidate_refuses_the_edge :
    ∃ s, run sample_env every_event sample_no_candidate (init (some 1) 1) = Except.ok s ∧
      OrdMap.empty s.slave_info_id_map_ = false ∧
      FindMostAvailableSlave s = INT_MIN ∧
      StartCommand sample_env sample_os s sample_edge false = (false, s) ∧
      (StartCommandLocally sample_os s sample_edge).1 = true :=
  ⟨_, rfl, rfl, rfl, rfl, rfl⟩

/-- C13 (amended): for every edge, when remote dispatch is chosen
(`run_in_local` is false and the registry is not empty) but
`FindMostAvailableSlave` returns its no-candidate value `INT_MIN`,
`StartCommand` returns false and leaves the driver as it is: the edge is
refused.  The driver dispatches locally, and returns the result of
`StartCommandLocally`, exactly when `run_in_local` is set or the registry is
empty at the call. -/
theorem C13_no_candidate_returns_false (env : Env) (os : LocalOutcome) (s : MasterMainRunner)
    (edge : Edge) :
    (OrdMap.empty s.slave_info_id_map_ = false → FindMostAvailableSlave s = INT_MIN →
      StartCommand env os s edge false = (false, s)) ∧
    (∀ run_in_local, (run_in_local = true ∨ OrdMap.empty s.slave_info_id_map_ = true) →
      StartCommand env os s edge run_in_local = StartCommandLocally os s edge) ∧
    (∀ run_in_local, run_in_local = false → OrdMap.empty s.slave_info_id_map_ = false →
      StartCommand env os s edge run_in_local = StartCommandRemotely env s edge) := by
  refine ⟨?_, ?_, ?_⟩
  · intro hne hnone
    unfold StartCommand
    simp only [hne, Bool.or_self, Bool.false_eq_true, if_false]
    rcases StartCommandRemotely_cases env s edge with ⟨_, hr⟩ | ⟨h, _⟩
    · exact hr
    · exact absurd hnone h
  · intro run_in_local h
    unfold StartCommand
    rcases h with h | h <;> simp [h]
  · intro run_in_local h1 h2
    unfold StartCommand
    simp [h1, h2]

/-- C13 (instance): the state of `sample_no_candidate`, where the registry is
not empty and no slave is a candidate. -/
theorem C13_no_candidate_returns_false_witness :
    ∃ s, run sample_env every_event sample_no_candidate (init (some 1) 1) = Except.ok s ∧
      OrdMap.empty s.slave_info_id_map_ = false ∧
      FindMostAvailableSlave s = INT_MIN ∧
      StartCommand sample_env sample_os s sample_edge false = (false, s) :=
  ⟨_, rfl, rfl, rfl,
    (C13_no_candidate_returns_false sample_env sample_os _ sample_edge).1 rfl rfl⟩

/-! ## C14: the start of the build -/

theorem OrdMap.length_modify {κ α : Type} [DecidableEq κ] (m : OrdMap κ α) (k : κ)
    (f : α → α) : (OrdMap.modify m k f).length = m.length := by
  unfold OrdMap.modify
  exact List.length_map _ _

theorem RunBuild_calls_StartBuild (env : Env) (s : MasterMainRunner)
    (h : s.is_building_ = false) :
    (StartBuild env s).is_building_ = true ∧
    RunBuild_calls (StartBuild env s) = RunBuild_calls s + 1 ∧
    (StartBuild env s).slave_info_id_map_ = s.slave_info_id_map_ ∧
    (StartBuild env s).max_slave_amount_ = s.max_slave_amount_ := by
  unfold StartBuild
  simp only [h, Bool.false_eq_true, if_false]
  refine ⟨trivial, ?_, trivial, trivial⟩
  simp [RunBuild_calls, List.count_append]

theorem StartBuild_noop (env : Env) (s : MasterMainRunner) (h : s.is_building_ = true) :
    StartBuild env s = s := by
  unfold StartBuild
  rw [if_pos h]

/-- The five ways a call of `OnSlaveSystemInfoAvailable` ends: the connection
is known already; the slave is turned away; the slave is admitted and too few
slaves are registered to start the build; the slave is admitted while the build
is running; the slave is admitted and the build starts. -/
theorem OnSlaveSystemInfoAvailable_latch (env : Env) (s : MasterMainRunner) (c : Int)
    (info : SlaveInfo) :
    OnSlaveSystemInfoAvailable env s c info = s ∨
    OnSlaveSystemInfoAvailable env s c info =
      { s with posted := s.posted ++ [Posted.QuitSlave c (kRejectReason env)] } ∨
    (OrdMap.size (OrdMap.insert s.slave_info_id_map_ c info) < s.max_slave_amount_ ∧
      OnSlaveSystemInfoAvailable env s c info =
        { s with
          slave_info_id_map_ := OrdMap.insert s.slave_info_id_map_ c info
          number_of_slave_processors_ :=
            add_slave_processors s.number_of_slave_processors_ info.number_of_processors }) ∨
    (s.is_building_ = true ∧
      OnSlaveSystemInfoAvailable env s c info =
        { s with
          slave_info_id_map_ := OrdMap.insert s.slave_info_id_map_ c info
          number_of_slave_processors_ :=
            add_slave_processors s.number_of_slave_processors_ info.number_of_processors }) ∨
    (s.max_slave_amount_ ≤ OrdMap.size (OrdMap.insert s.slave_info_id_map_ c info) ∧
      s.is_building_ = false ∧
      OnSlaveSystemInfoAvailable env s c info =
        { s with
          slave_info_id_map_ := OrdMap.insert s.slave_info_id_map_ c info
          number_of_slave_processors_ :=
            add_slave_processors s.number_of_slave_processors_ info.number_of_processors
          is_building_ := true
          parallelism := env.GuessParallelism - 1
          pending_remote_commands_ := 0
          posted := s.posted ++ [Posted.RunBuild] }) := by
  unfold OnSlaveSystemInfoAvailable
  by_cases h1 : (OrdMap.find s.slave_info_id_map_ c).isSome = true
  · rw [if_pos h1]
    exact Or.inl rfl
  · rw [if_neg h1]
    by_cases h2 : info.operating_system_name ≠ env.OperatingSystemName ∨
        info.operating_system_architecture ≠ env.OperatingSystemArchitecture
    · rw [if_pos h2]
      exact Or.inr (Or.inl rfl)
    · rw [if_neg h2]
      simp only
      by_cases h3 : OrdMap.size (OrdMap.insert s.slave_info_id_map_ c info) ≥
          s.max_slave_amount_
      · rw [if_pos h3]
        by_cases hb : s.is_building_ = true
        · refine Or.inr (Or.inr (Or.inr (Or.inl ⟨hb, ?_⟩)))
          exact StartBuild_noop env
            { s with
              slave_info_id_map_ := OrdMap.insert s.slave_info_id_map_ c info
              number_of_slave_processors_ :=
                add_slave_processors s.number_of_slave_processors_
                  info.number_of_processors } hb
        · have hb0 : s.is_building_ = false := by simpa using hb
          refine Or.inr (Or.inr (Or.inr (Or.inr ⟨h3, hb0, ?_⟩)))
          simp only [StartBuild, hb0, Bool.false_eq_true, if_false]
      · rw [if_neg h3]
        exact Or.inr (Or.inr (Or.inl ⟨by omega, rfl⟩))

theorem start_step (env : Env) (n : Nat) (s s1 : MasterMainRunner) (ev : Event)
    (hs : StartInv n s) (ha : slave_events s ev = true)
    (hst : step env s ev = Except.ok s1) :
    StartInv n s1 ∧
    (s.is_building_ = false →
      ((s1.is_building_ = true ↔ n ≤ OrdMap.size s1.slave_info_id_map_) ∧
       (s1.is_building_ = true → ∃ c info, ev = Event.SlaveSystemInfoAvailable c info))) := by
  obtain ⟨hmax, hoff, hon⟩ := hs
  have hsame : StartInv n s ∧ (s.is_building_ = false →
      ((s.is_building_ = true ↔ n ≤ OrdMap.size s.slave_info_id_map_) ∧
       (s.is_building_ = true → ∃ c info, ev = Event.SlaveSystemInfoAvailable c info))) := by
    refine ⟨⟨hmax, hoff, hon⟩, fun hb => ⟨?_, ?_⟩⟩
    · have := (hoff hb).2
      constructor
      · intro h; rw [hb] at h; exact absurd h (by simp)
      · intro h; omega
    · intro h; rw [hb] at h; exact absurd h (by simp)
  rcases slave_event_cases ev ha with ⟨c, info, rfl⟩ | ⟨c, l, r, m, rfl⟩ | ⟨c, rfl⟩
  · simp only [step, Except.ok.injEq] at hst
    subst hst
    rcases OnSlaveSystemInfoAvailable_latch env s c info with
      hr | hr | ⟨hlt, hr⟩ | ⟨hb, hr⟩ | ⟨hge, hb, hr⟩
    · rw [hr]
      exact hsame
    · rw [hr]
      have hcount : RunBuild_calls
          { s with posted := s.posted ++ [Posted.QuitSlave c (kRejectReason env)] } =
          RunBuild_calls s := by
        simp [RunBuild_calls, List.count_append]
      refine ⟨⟨hmax, ?_, ?_⟩, fun hb => hsame.2 hb⟩
      · intro hb
        rw [hcount]
        exact hoff hb
      · intro hb
        rw [hcount]
        exact hon hb
    · rw [hr]
      rw [hmax] at hlt
      refine ⟨⟨hmax, fun hb => ⟨(hoff hb).1, hlt⟩, hon⟩, fun hb => ⟨?_, fun _ => ⟨c, info, rfl⟩⟩⟩
      constructor
      · intro h
        exact absurd (show s.is_building_ = true from h) (by simp [hb])
      · intro h
        have h4 : n ≤ OrdMap.size (OrdMap.insert s.slave_info_id_map_ c info) := h
        omega
    · rw [hr]
      refine ⟨⟨hmax, ?_, hon⟩, fun h => absurd hb (by simp [h])⟩
      intro h
      exact absurd hb (by simp [show s.is_building_ = false from h])
    · rw [hr]
      rw [hmax] at hge
      refine ⟨⟨hmax, ?_, ?_⟩, fun _ => ⟨?_, fun _ => ⟨c, info, rfl⟩⟩⟩
      · intro h
        exact absurd h (by simp)
      · intro _
        have h0 : RunBuild_calls s = 0 := (hoff hb).1
        show (s.posted ++ [Posted.RunBuild]).count Posted.RunBuild = 1
        unfold RunBuild_calls at h0
        simp [List.count_append, h0]
      · constructor
        · intro _
          exact hge
        · intro _
          rfl
  · simp only [step, Except.ok.injEq] at hst
    subst hst
    unfold OnSlaveStatusUpdate
    split
    · refine ⟨hsame.1, fun hb => ⟨(hsame.2 hb).1, fun h => ?_⟩⟩
      rw [hb] at h
      exact absurd h (by simp)
    · have hlen := OrdMap.length_modify s.slave_info_id_map_ c (fun info : SlaveInfo =>
        { info with
          load_average := l
          amount_of_running_commands := r
          amount_of_available_physical_memory := m })
      refine ⟨⟨hmax, ?_, hon⟩, fun hb => ⟨?_, ?_⟩⟩
      · intro hb
        exact ⟨(hoff hb).1, lt_of_eq_of_lt hlen (hoff hb).2⟩
      · have := (hoff hb).2
        constructor
        · intro h
          exact absurd (show s.is_building_ = true from h) (by simp [hb])
        · intro h
          have h4 : n ≤ (OrdMap.modify s.slave_info_id_map_ c (fun info : SlaveInfo =>
            { info with
              load_average := l
              amount_of_running_commands := r
              amount_of_available_physical_memory := m })).length := h
          rw [hlen] at h4
          simp only [OrdMap.size] at this
          omega
      · intro h
        exact absurd (show s.is_building_ = true from h) (by simp [hb])
  · simp only [step] at hst
    have h1 := OnSlaveClose_ok env s s1 c hst
    subst h1
    have hlen := OrdMap.length_erase_le s.slave_info_id_map_ c
    refine ⟨⟨hmax, ?_, hon⟩, fun hb => ⟨?_, ?_⟩⟩
    · intro hb
      refine ⟨(hoff hb).1, ?_⟩
      have := (hoff hb).2
      show (OrdMap.erase s.slave_info_id_map_ c).length < n
      simp only [OrdMap.size] at this
      omega
    · have := (hoff hb).2
      constructor
      · intro h
        exact absurd (show s.is_building_ = true from h) (by simp [hb])
      · intro h
        have h4 : n ≤ (OrdMap.erase s.slave_info_id_map_ c).length := h
        simp only [OrdMap.size] at this
        omega
    · intro h
      exact absurd (show s.is_building_ = true from h) (by simp [hb])

theorem StartInv_init (n : Nat) (par : Int) (hn : 1 ≤ n) : StartInv n (init (some n) par) := by
  refine ⟨rfl, fun _ => ⟨rfl, ?_⟩, fun h => absurd h (by simp [init])⟩
  show (0 : Nat) < n
  omega

/-- C14: for every `--max-slave-amount=n` with `n ≥ 1` and every state reached
from the initial state by slave events (SystemInfo from compatible and
incompatible slaves, repeated SystemInfo, status updates, closes): while
`is_building_` is false, `RunBuild` has not been called and fewer than `n`
slaves are in the registry; once `is_building_` is true, `RunBuild` has been
called exactly once; the next slave event sets `is_building_` exactly when it
leaves at least `n` slaves in the registry, and only a call of
`OnSlaveSystemInfoAvailable` does so; and `StartBuild` is a no-op while
`is_building_` is true. -/
theorem C14_build_starts_once_with_enough_slaves (env : Env) (n : Nat) (par : Int)
    (evs : List Event) (s : MasterMainRunner) (hn : 1 ≤ n)
    (h : run env slave_events evs (init (some n) par) = Except.ok s) :
    (s.is_building_ = false →
      RunBuild_calls s = 0 ∧ OrdMap.size s.slave_info_id_map_ < n) ∧
    (s.is_building_ = true → RunBuild_calls s = 1) ∧
    (∀ ev s1, slave_events s ev = true → step env s ev = Except.ok s1 →
      s.is_building_ = false →
      ((s1.is_building_ = true ↔ n ≤ OrdMap.size s1.slave_info_id_map_) ∧
       (s1.is_building_ = true → ∃ c info, ev = Event.SlaveSystemInfoAvailable c info))) ∧
    (s.is_building_ = true → StartBuild env s = s) := by
  have hinv := run_invariant env slave_events (StartInv n)
    (fun s ev s1 hs ha hst => (start_step env n s s1 ev hs ha hst).1)
    evs _ s (StartInv_init n par hn) h
  refine ⟨hinv.2.1, hinv.2.2, ?_, StartBuild_noop env s⟩
  intro ev s1 ha hst
  exact (start_step env n s s1 ev hinv ha hst).2

/-- C14 (instance): with `--max-slave-amount=2` the run `sample_two_slaves_needed`
ends with the build started and one call of `RunBuild`, although three slaves
registered after the build could start; after its first four events one slave
is registered and the build has not started. -/
theorem C14_build_starts_once_with_enough_slaves_witness :
    ∃ s0 s,
      run sample_env slave_events (sample_two_slaves_needed.take 4) (init (some 2) 1) =
        Except.ok s0 ∧
      s0.is_building_ = false ∧ RunBuild_calls s0 = 0 ∧
      run sample_env slave_events sample_two_slaves_needed (init (some 2) 1) = Except.ok s ∧
      s.is_building_ = true ∧
      ((s.is_building_ = false →
        RunBuild_calls s = 0 ∧ OrdMap.size s.slave_info_id_map_ < 2) ∧
       (s.is_building_ = true → RunBuild_calls s = 1) ∧
       (∀ ev s1, slave_events s ev = true → step sample_env s ev = Except.ok s1 →
        s.is_building_ = false →
        ((s1.is_building_ = true ↔ 2 ≤ OrdMap.size s1.slave_info_id_map_) ∧
         (s1.is_building_ = true →
          ∃ c info, ev = Event.SlaveSystemInfoAvailable c info))) ∧
       (s.is_building_ = true → StartBuild sample_env s = s)) :=
  ⟨_, _, rfl, rfl, rfl, rfl, rfl,
    C14_build_starts_once_with_enough_slaves sample_env 2 1 sample_two_slaves_needed _
      (by decide) rfl⟩

/-! ## C15: `HasPendingLocalCommands` -/

theorem OrdMap.mem_keys_insert {κ α : Type} [DecidableEq κ] [LT κ]
    [DecidableRel (fun (a b : κ) => a < b)] (m : OrdMap κ α) (k : κ) (v : α) (x : κ) :
    x ∈ (OrdMap.insert m k v).map (fun e => e.1) ↔ x = k ∨ x ∈ m.map (fun e => e.1) := by
  induction m with
  | nil => simp [OrdMap.insert]
  | cons kv rest ih =>
    obtain ⟨k1, v1⟩ := kv
    unfold OrdMap.insert
    by_cases h1 : k1 = k
    · rw [if_pos h1]
      simp only [List.map_cons, List.mem_cons, h1]
      tauto
    · rw [if_neg h1]
      by_cases h2 : k < k1
      · rw [if_pos h2]
        simp only [List.map_cons, List.mem_cons]
      · rw [if_neg h2]
        simp only [List.map_cons, List.mem_cons, ih]
        tauto

theorem OrdMap.mem_keys_erase {κ α : Type} [DecidableEq κ] (m : OrdMap κ α) (k : κ) (x : κ) :
    x ∈ (OrdMap.erase m k).map (fun e => e.1) ↔ x ∈ m.map (fun e => e.1) ∧ x ≠ k := by
  unfold OrdMap.erase
  simp only [List.mem_map, List.mem_filter, decide_eq_true_eq]
  constructor
  · rintro ⟨e, ⟨he, hne⟩, rfl⟩
    exact ⟨⟨e, he, rfl⟩, hne⟩
  · rintro ⟨⟨e, he, rfl⟩, hne⟩
    exact ⟨e, ⟨he, hne⟩, rfl⟩

theorem OrdMap.mem_keys_of_find {κ α : Type} [DecidableEq κ] {m : OrdMap κ α} {k : κ} {v : α}
    (h : OrdMap.find m k = some v) : k ∈ m.map (fun e => e.1) :=
  List.mem_map.2 ⟨(k, v), OrdMap.mem_of_find h, rfl⟩

theorem OrdMap.mem_keys_insertNew {κ α : Type} [DecidableEq κ] [LT κ]
    [DecidableRel (fun (a b : κ) => a < b)] (m : OrdMap κ α) (k : κ) (v : α) (x : κ) :
    x ∈ (OrdMap.insertNew m k v).map (fun e => e.1) ↔ x = k ∨ x ∈ m.map (fun e => e.1) := by
  unfold OrdMap.insertNew
  cases hf : OrdMap.find m k with
  | none => exact OrdMap.mem_keys_insert m k v x
  | some w =>
    simp only
    have hk := OrdMap.mem_keys_of_find hf
    constructor
    · exact Or.inr
    · rintro (h | h)
      · rw [h]; exact hk
      · exact h

theorem tracked_ids_DoWork (o : DoWorkOutcome) (ss : SubprocessSet) :
    List.Perm (tracked_ids (SubprocessSet.DoWork o ss).2) (tracked_ids ss) := by
  have hmap : ∀ l : List Subprocess,
      (l.filterMap (fun p =>
        match OrdMap.find o.ended p.id with
        | some r => some ({ p with status := r.1, output := r.2 } : Subprocess)
        | none => none)).map (fun p => p.id) =
      (l.filter (fun p => !(OrdMap.find o.ended p.id).isNone)).map (fun p => p.id) := by
    intro l
    induction l with
    | nil => rfl
    | cons p rest ih =>
      cases hf : OrdMap.find o.ended p.id with
      | none => simp [List.filterMap_cons, List.filter_cons, hf, ih]
      | some r => simp [List.filterMap_cons, List.filter_cons, hf, ih]
  have hsplit := (List.filter_append_perm (fun p : Subprocess =>
    (OrdMap.find o.ended p.id).isNone) ss.running_).map (fun p => p.id)
  unfold tracked_ids SubprocessSet.DoWork
  simp only [List.map_append, hmap]
  rw [List.map_append] at hsplit
  refine List.Perm.trans ?_ (List.Perm.append_right _ hsplit)
  rw [List.append_assoc]
  exact List.Perm.append_left _ List.perm_append_comm

theorem tracked_ids_length (s : MasterMainRunner) :
    (tracked_ids s.subprocs_).length = local_count s := by
  simp [tracked_ids, local_count]

theorem NextFinished_some (ss : SubprocessSet) (p : Subprocess)
    (h : (SubprocessSet.NextFinished ss).1 = some p) :
    ss.finished_ = p :: (SubprocessSet.NextFinished ss).2.finished_ ∧
    (SubprocessSet.NextFinished ss).2.running_ = ss.running_ := by
  unfold SubprocessSet.NextFinished at h ⊢
  cases hfin : ss.finished_ with
  | nil => simp [hfin] at h
  | cons q rest =>
    simp only [hfin, Option.some.injEq] at h ⊢
    exact ⟨by rw [h], trivial⟩

/-- A property of the driver that every pass of the loop of `WaitForCommand`
and its final statements preserve holds when `WaitForCommand` returns. -/
theorem WaitForCommand_preserves (P : MasterMainRunner → Prop)
    (hdo : ∀ s o, P s → P { s with subprocs_ := (SubprocessSet.DoWork o s.subprocs_).2 })
    (hcollect : ∀ s p s1 out, P s → (SubprocessSet.NextFinished s.subprocs_).1 = some p →
      WaitForCommand_collect s p (SubprocessSet.NextFinished s.subprocs_).2 =
        Except.ok (out, s1) → P s1) :
    ∀ (observed : List DoWorkOutcome) (s s1 : MasterMainRunner) (out : WaitOutcome),
      P s → WaitForCommand observed s = Except.ok (out, s1) → P s1 := by
  intro observed
  induction observed with
  | nil =>
    intro s s1 out hs h
    unfold WaitForCommand at h
    split at h
    · rename_i p hp
      exact hcollect s p s1 out hs hp h
    · simp only [Except.ok.injEq, Prod.mk.injEq] at h
      exact h.2 ▸ hs
  | cons o rest ih =>
    intro s s1 out hs h
    unfold WaitForCommand at h
    split at h
    · rename_i p hp
      exact hcollect s p s1 out hs hp h
    · split at h
      · simp only [Except.ok.injEq, Prod.mk.injEq] at h
        exact h.2 ▸ hdo s o hs
      · exact ih _ s1 out (hdo s o hs) h

theorem LocalInv_DoWork (s : MasterMainRunner) (o : DoWorkOutcome)
    (hs : LocalInv s ∧ (LocalExact s ∨ True)) :
    LocalInv { s with subprocs_ := (SubprocessSet.DoWork o s.subprocs_).2 } ∧
    (LocalExact s → LocalExact { s with subprocs_ := (SubprocessSet.DoWork o s.subprocs_).2 }) := by
  obtain ⟨⟨h1, h2, h3⟩, _⟩ := hs
  have hperm := tracked_ids_DoWork o s.subprocs_
  refine ⟨⟨hperm.nodup_iff.2 h1, ?_, h3⟩, ?_⟩
  · intro id hid
    exact h2 id (hperm.mem_iff.1 hid)
  · intro hex id hid
    exact hperm.mem_iff.2 (hex id hid)

theorem LocalInv_collect (s s1 : MasterMainRunner) (p : Subprocess) (out : WaitOutcome)
    (hs : LocalInv s) (hp : (SubprocessSet.NextFinished s.subprocs_).1 = some p)
    (hc : WaitForCommand_collect s p (SubprocessSet.NextFinished s.subprocs_).2 =
      Except.ok (out, s1)) :
    LocalInv s1 ∧ (LocalExact s → LocalExact s1) := by
  obtain ⟨h1, h2, h3⟩ := hs
  have hfr := WaitForCommand_collect_frame s s1 p _ out hc
  obtain ⟨hfin, hrun⟩ := NextFinished_some s.subprocs_ p hp
  have hperm : List.Perm (tracked_ids s.subprocs_)
      (p.id :: tracked_ids (SubprocessSet.NextFinished s.subprocs_).2) := by
    unfold tracked_ids
    rw [hrun, hfin]
    simp only [List.map_cons]
    exact List.perm_middle
  have hnd := hperm.nodup_iff.1 h1
  rw [List.nodup_cons] at hnd
  subst hfr
  refine ⟨⟨hnd.2, ?_, ?_⟩, ?_⟩
  · intro id hid
    have hid1 : id ∈ tracked_ids (SubprocessSet.NextFinished s.subprocs_).2 := hid
    have hmem : id ∈ tracked_ids s.subprocs_ := hperm.mem_iff.2 (List.mem_cons_of_mem _ hid1)
    have hne : id ≠ p.id := by
      intro heq
      exact hnd.1 (heq ▸ hid1)
    exact (OrdMap.mem_keys_erase s.subproc_to_edge_ p.id id).2 ⟨h2 id hmem, hne⟩
  · intro id hid
    exact h3 id ((OrdMap.mem_keys_erase s.subproc_to_edge_ p.id id).1 hid).1
  · intro hex id hid
    obtain ⟨hk, hne⟩ := (OrdMap.mem_keys_erase s.subproc_to_edge_ p.id id).1 hid
    rcases List.mem_cons.1 (hperm.mem_iff.1 (hex id hk)) with h | h
    · exact absurd h hne
    · exact h

theorem LocalInv_StartCommandLocally (os : LocalOutcome) (s : MasterMainRunner) (edge : Edge)
    (hs : LocalInv s) :
    LocalInv (StartCommandLocally os s edge).2 ∧
    (LocalExact s → LocalExact (StartCommandLocally os s edge).2) := by
  obtain ⟨h1, h2, h3⟩ := hs
  rcases StartCommandLocally_cases os s edge with hr | hr
  · rw [hr]
    exact ⟨⟨h1, h2, h3⟩, fun h => h⟩
  · rw [hr]
    have hfresh : s.next_subproc ∉ tracked_ids s.subprocs_ := by
      intro hmem
      have := h3 _ (h2 _ hmem)
      omega
    have hperm : List.Perm
        (tracked_ids
          { s.subprocs_ with
            running_ := s.subprocs_.running_ ++
              [{ id := s.next_subproc, command := edge.command,
                 use_console := edge.use_console, status := ExitStatus.ExitFailure,
                 output := "" }] })
        (s.next_subproc :: tracked_ids s.subprocs_) := by
      unfold tracked_ids
      simp only [List.map_append, List.map_cons, List.map_nil, List.append_assoc,
        List.singleton_append]
      exact List.perm_middle
    refine ⟨⟨?_, ?_, ?_⟩, ?_⟩
    · exact hperm.nodup_iff.2 (List.nodup_cons.2 ⟨hfresh, h1⟩)
    · intro id hid
      apply (OrdMap.mem_keys_insertNew s.subproc_to_edge_ s.next_subproc edge id).2
      rcases List.mem_cons.1 (hperm.mem_iff.1 hid) with h | h
      · exact Or.inl h
      · exact Or.inr (h2 id h)
    · intro id hid
      rcases (OrdMap.mem_keys_insertNew s.subproc_to_edge_ s.next_subproc edge id).1 hid
        with h | h
      · show id < s.next_subproc + 1
        omega
      · have := h3 id h
        show id < s.next_subproc + 1
        omega
    · intro hex id hid
      apply hperm.mem_iff.2
      rcases (OrdMap.mem_keys_insertNew s.subproc_to_edge_ s.next_subproc edge id).1 hid
        with h | h
      · exact List.mem_cons.2 (Or.inl h)
      · exact List.mem_cons_of_mem _ (hex id h)

/-- Every local call preserves `LocalInv`; every local call but `Abort`
preserves `LocalExact` as well. -/
theorem local_step (env : Env) (s s1 : MasterMainRunner) (ev : Event)
    (hs : LocalInv s) (ha : local_calls s ev = true) (hst : step env s ev = Except.ok s1) :
    LocalInv s1 ∧ (ev.is_abort = false → LocalExact s → LocalExact s1) := by
  cases ev with
  | StartCommand edge run_in_local os =>
    simp only [local_calls, Event.is_local_call] at ha
    simp only [step, Except.ok.injEq] at hst
    subst hst
    unfold StartCommand
    simp only [ha, Bool.true_or, if_true]
    have h := LocalInv_StartCommandLocally os s edge hs
    exact ⟨h.1, fun _ => h.2⟩
  | WaitForCommand observed =>
    simp only [step] at hst
    cases hw : MasterMainRunner.WaitForCommand observed s with
    | error f => rw [hw] at hst; exact absurd hst (by simp)
    | ok r =>
      rw [hw] at hst
      simp only [Except.ok.injEq] at hst
      obtain ⟨out, s2⟩ := r
      simp only at hst
      subst hst
      have hboth := WaitForCommand_preserves
        (fun t => LocalInv t ∧ (LocalExact s → LocalExact t))
        (fun t o ht => ⟨(LocalInv_DoWork t o ⟨ht.1, Or.inr trivial⟩).1,
          fun h => (LocalInv_DoWork t o ⟨ht.1, Or.inr trivial⟩).2 (ht.2 h)⟩)
        (fun t p t1 out1 ht hp hc => ⟨(LocalInv_collect t t1 p out1 ht.1 hp hc).1,
          fun h => (LocalInv_collect t t1 p out1 ht.1 hp hc).2 (ht.2 h)⟩)
        observed s s2 out ⟨hs, fun h => h⟩ hw
      exact ⟨hboth.1, fun _ => hboth.2⟩
  | Abort =>
    simp only [step, Except.ok.injEq] at hst
    subst hst
    obtain ⟨_, _, h3⟩ := hs
    refine ⟨⟨List.nodup_nil, ?_, h3⟩, fun h => absurd h (by simp [Event.is_abort])⟩
    intro id hid
    exact absurd hid (List.not_mem_nil _)
  | StartBuild => simp [local_calls, Event.is_local_call] at ha
  | SlaveSystemInfoAvailable c info => simp [local_calls, Event.is_local_call] at ha
  | SlaveStatusUpdate c l r m => simp [local_calls, Event.is_local_call] at ha
  | SlaveClose c => simp [local_calls, Event.is_local_call] at ha
  | RemoteCommandDone c e st o m => simp [local_calls, Event.is_local_call] at ha
  | FetchTargets h t r g => simp [local_calls, Event.is_local_call] at ha
  | FetchTargetsDone r b => simp [local_calls, Event.is_local_call] at ha

theorem HasPendingLocalCommands_iff (s : MasterMainRunner) :
    HasPendingLocalCommands s = true ↔ ∃ id, id ∈ edge_map_ids s := by
  unfold HasPendingLocalCommands OrdMap.empty edge_map_ids
  cases hm : s.subproc_to_edge_ with
  | nil => simp
  | cons e rest =>
    simp only [List.isEmpty_cons, Bool.not_false, List.map_cons, true_iff]
    exact ⟨e.1, List.mem_cons_self _ _⟩

theorem local_count_pos_iff (s : MasterMainRunner) :
    0 < local_count s ↔ ∃ id, id ∈ tracked_ids s.subprocs_ := by
  rw [← tracked_ids_length s]
  cases ht : tracked_ids s.subprocs_ with
  | nil => simp
  | cons x rest =>
    simp only [List.length_cons, Nat.succ_pos, true_iff]
    exact ⟨x, List.mem_cons_self _ _⟩

theorem LocalInv_init (max_slave_amount : Option Nat) (par : Int) :
    LocalInv (init max_slave_amount par) ∧ LocalExact (init max_slave_amount par) := by
  refine ⟨⟨List.nodup_nil, ?_, ?_⟩, ?_⟩ <;> intro id hid <;>
    exact absurd hid (List.not_mem_nil _)

/-- C15 (counterexample): an edge is started locally and `Abort()` is called;
the local executor then tracks no subprocess, its running and finished sets
are empty, yet `HasPendingLocalCommands()` returns true. -/
theorem C15_pending_commands_after_abort :
    ∃ s, run sample_env local_calls sample_abort (init none 1) = Except.ok s ∧
      s.subprocs_ = { running_ := [], finished_ := [] } ∧
      local_count s = 0 ∧
      HasPendingLocalCommands s = true :=
  ⟨_, rfl, rfl, rfl, rfl⟩

/-- C15 (amended): in every state reachable from the initial state by any
sequence of `StartCommandLocally`, `WaitForCommand` and `Abort` calls,
`HasPendingLocalCommands()` returns true if and only if `subproc_to_edge_` is
not empty; it returns true whenever the local executor still tracks a
subprocess; in a state reached without a call of `Abort` it returns true if
and only if at least one subprocess is tracked; and `Abort()` empties the
subprocess set but leaves the answer of `HasPendingLocalCommands()` as it was. -/
theorem C15_pending_commands_follow_edge_map (env : Env) (max_slave_amount : Option Nat)
    (par : Int) (evs : List Event) (s : MasterMainRunner)
    (h : run env local_calls evs (init max_slave_amount par) = Except.ok s) :
    (HasPendingLocalCommands s = true ↔ s.subproc_to_edge_ ≠ []) ∧
    (0 < local_count s → HasPendingLocalCommands s = true) ∧
    ((∀ ev ∈ evs, ev.is_abort = false) →
      (HasPendingLocalCommands s = true ↔ 0 < local_count s)) ∧
    (HasPendingLocalCommands (Abort s) = HasPendingLocalCommands s ∧
      local_count (Abort s) = 0) := by
  have hinv := run_invariant env local_calls LocalInv
    (fun s ev s1 hs ha hst => (local_step env s s1 ev hs ha hst).1)
    evs _ s (LocalInv_init max_slave_amount par).1 h
  have hsub : 0 < local_count s → HasPendingLocalCommands s = true := by
    intro hpos
    obtain ⟨id, hid⟩ := (local_count_pos_iff s).1 hpos
    exact (HasPendingLocalCommands_iff s).2 ⟨id, hinv.2.1 id hid⟩
  refine ⟨?_, hsub, ?_, ⟨rfl, rfl⟩⟩
  · unfold HasPendingLocalCommands OrdMap.empty
    cases s.subproc_to_edge_ <;> simp
  · intro hna
    have h2 := run_restrict env local_calls (fun ev => !ev.is_abort) evs _ s
      (fun ev hev => by simp [hna ev hev]) h
    have hex := run_invariant env (fun s ev => local_calls s ev && !ev.is_abort)
      (fun s => LocalInv s ∧ LocalExact s)
      (fun s ev s1 hs ha hst => by
        simp only [Bool.and_eq_true, Bool.not_eq_true_eq_eq_false] at ha
        have hl := local_step env s s1 ev hs.1 (by simpa using ha.1) hst
        exact ⟨hl.1, hl.2 (by simpa using ha.2) hs.2⟩)
      evs _ s (LocalInv_init max_slave_amount par) h2
    constructor
    · intro hp
      obtain ⟨id, hid⟩ := (HasPendingLocalCommands_iff s).1 hp
      exact (local_count_pos_iff s).2 ⟨id, hex.2 id hid⟩
    · exact hsub

/-- C15 (instance): two edges are started locally and the first one is
collected; one subprocess is tracked and `HasPendingLocalCommands()` is true. -/
theorem C15_pending_commands_follow_edge_map_witness :
    ∃ s, run sample_env local_calls sample_local_run (init none 1) = Except.ok s ∧
      local_count s = 1 ∧
      HasPendingLocalCommands s = true ∧
      ((HasPendingLocalCommands s = true ↔ s.subproc_to_edge_ ≠ []) ∧
       (0 < local_count s → HasPendingLocalCommands s = true) ∧
       ((∀ ev ∈ sample_local_run, ev.is_abort = false) →
        (HasPendingLocalCommands s = true ↔ 0 < local_count s)) ∧
       (HasPendingLocalCommands (Abort s) = HasPendingLocalCommands s ∧
        local_count (Abort s) = 0)) :=
  ⟨_, rfl, rfl, rfl,
    C15_pending_commands_follow_edge_map sample_env none 1 sample_local_run _ rfl⟩

/-! ## C16: pending remote commands and the outstanding map -/

theorem OrdMap.not_mem_keys_of_find {κ α : Type} [DecidableEq κ] (m : OrdMap κ α) (k : κ)
    (h : OrdMap.find m k = none) : k ∉ m.map (fun e => e.1) := by
  induction m with
  | nil => simp
  | cons kv rest ih =>
    obtain ⟨k1, v1⟩ := kv
    unfold OrdMap.find at h
    split at h
    · exact absurd h (by simp)
    · rename_i hne
      simp only [List.map_cons, List.mem_cons, not_or]
      exact ⟨fun heq => hne heq.symm, ih h⟩

theorem RemoteInv_dispatch (env : Env) (s : MasterMainRunner) (edge : Edge)
    (in_flight : List Nat) (hs : RemoteInv s in_flight)
    (hnew : (OrdMap.find s.outstanding_edges_ (env.Hash edge.command % 4294967296)).isSome
      = false) :
    RemoteInv (StartCommandRemotely env s edge).2
      (if (StartCommandRemotely env s edge).1 then
        (env.Hash edge.command % 4294967296) :: in_flight else in_flight) ∧
    OrdMap.size (StartCommandRemotely env s edge).2.outstanding_edges_ ≤
      OrdMap.size s.outstanding_edges_ + 1 := by
  obtain ⟨h1, h2, h3⟩ := hs
  rcases StartCommandRemotely_cases env s edge with ⟨_, hr⟩ | ⟨_, hr⟩
  · rw [hr]
    exact ⟨⟨h1, h2, h3⟩, Nat.le_succ _⟩
  · rw [hr]
    have hnone : OrdMap.find s.outstanding_edges_ (env.Hash edge.command % 4294967296)
        = none := by
      cases hf : OrdMap.find s.outstanding_edges_ (env.Hash edge.command % 4294967296) with
      | none => rfl
      | some v => simp [hf] at hnew
    have hfresh : env.Hash edge.command % 4294967296 ∉ in_flight := fun hmem =>
      OrdMap.not_mem_keys_of_find _ _ hnone (h2 _ hmem)
    refine ⟨⟨?_, ?_, ?_⟩, OrdMap.length_insert_le _ _ _⟩
    · exact List.nodup_cons.2 ⟨hfresh, h1⟩
    · intro id hid
      apply (OrdMap.mem_keys_insert s.outstanding_edges_ _ edge id).2
      rcases List.mem_cons.1 hid with h | h
      · exact Or.inl h
      · exact Or.inr (h2 id h)
    · show s.pending_remote_commands_ + 1 =
        (((env.Hash edge.command % 4294967296) :: in_flight).length : Int)
      simp only [List.length_cons, Nat.cast_add, Nat.cast_one]
      omega

theorem RemoteInv_done (env : Env) (s s1 : MasterMainRunner) (connection_id : Int)
    (edge_id : Nat) (status : ExitStatus) (output : String) (md5s : List String)
    (in_flight : List Nat) (hs : RemoteInv s in_flight) (hmem : edge_id ∈ in_flight)
    (hd : OnRemoteCommandDone env s connection_id edge_id status output md5s = Except.ok s1) :
    RemoteInv s1 (in_flight.erase edge_id) ∧
    OrdMap.size s1.outstanding_edges_ ≤ OrdMap.size s.outstanding_edges_ := by
  obtain ⟨h1, h2, h3⟩ := hs
  have hlen : ((in_flight.erase edge_id).length : Int) = (in_flight.length : Int) - 1 := by
    rw [List.length_erase_of_mem hmem]
    have : 0 < in_flight.length := List.length_pos_of_mem hmem
    omega
  rcases OnRemoteCommandDone_ok env s s1 connection_id edge_id status output md5s hd with
    ⟨_, hr⟩ | ⟨_, edge, targets, host, registry, _, hr⟩
  · subst hr
    refine ⟨⟨h1.erase edge_id, ?_, ?_⟩, le_refl _⟩
    · intro id hid
      exact h2 id ((h1.mem_erase_iff).1 hid).2
    · show s.pending_remote_commands_ - 1 = ((in_flight.erase edge_id).length : Int)
      omega
  · subst hr
    refine ⟨⟨h1.erase edge_id, ?_, ?_⟩, OrdMap.length_erase_le _ _⟩
    · intro id hid
      obtain ⟨hne, hin⟩ := (h1.mem_erase_iff).1 hid
      exact (OrdMap.mem_keys_erase s.outstanding_edges_ edge_id id).2 ⟨h2 id hin, hne⟩
    · show s.pending_remote_commands_ - 1 = ((in_flight.erase edge_id).length : Int)
      omega

theorem remote_run_invariant (env : Env) :
    ∀ (calls : List RemoteCall) (s s1 : MasterMainRunner) (in_flight in_flight1 : List Nat),
      RemoteInv s in_flight →
      remote_run env calls s in_flight = Except.ok (s1, in_flight1) →
      RemoteInv s1 in_flight1 ∧
      OrdMap.size s1.outstanding_edges_ ≤ OrdMap.size s.outstanding_edges_ + calls.length := by
  intro calls
  induction calls with
  | nil =>
    intro s s1 F F1 hs h
    simp only [remote_run, Except.ok.injEq, Prod.mk.injEq] at h
    obtain ⟨rfl, rfl⟩ := h
    exact ⟨hs, Nat.le_add_right _ _⟩
  | cons call rest ih =>
    intro s s1 F F1 hs h
    simp only [List.length_cons]
    cases call with
    | StartCommandRemotely edge =>
      unfold remote_run at h
      by_cases hk : (OrdMap.find s.outstanding_edges_
          (env.Hash edge.command % 4294967296)).isSome = true
      · rw [if_pos hk] at h
        exact absurd h (by simp)
      · rw [if_neg hk] at h
        have hstep := RemoteInv_dispatch env s edge F hs (by simpa using hk)
        by_cases hb : (StartCommandRemotely env s edge).1 = true
        · rw [if_pos hb] at h
          rw [if_pos hb] at hstep
          have hrec := ih _ s1 _ F1 hstep.1 h
          exact ⟨hrec.1, by omega⟩
        · rw [if_neg hb] at h
          rw [if_neg hb] at hstep
          have hrec := ih _ s1 _ F1 hstep.1 h
          exact ⟨hrec.1, by omega⟩
    | OnRemoteCommandDone c edge_id status output md5s =>
      unfold remote_run at h
      by_cases hm : edge_id ∈ F
      · rw [if_pos hm] at h
        cases hd : OnRemoteCommandDone env s c edge_id status output md5s with
        | error f => rw [hd] at h; exact absurd h (by simp)
        | ok s2 =>
          rw [hd] at h
          have hstep := RemoteInv_done env s s2 c edge_id status output md5s F hs hm hd
          have hrec := ih s2 s1 _ F1 hstep.1 h
          exact ⟨hrec.1, by omega⟩
      · rw [if_neg hm] at h
        exact absurd h (by simp)

theorem RemoteInv_pending_le (s : MasterMainRunner) (in_flight : List Nat)
    (hs : RemoteInv s in_flight) :
    0 ≤ s.pending_remote_commands_ ∧
    s.pending_remote_commands_ ≤ (OrdMap.size s.outstanding_edges_ : Int) := by
  obtain ⟨h1, h2, h3⟩ := hs
  have hle : in_flight.length ≤ (s.outstanding_edges_.map (fun e => e.1)).length :=
    (List.subperm_of_subset h1 (fun id hid => h2 id hid)).length_le
  rw [List.length_map] at hle
  unfold OrdMap.size
  omega

/-- C16: for every sequence of `StartCommandRemotely` and
`OnRemoteCommandDone` calls that starts from an empty outstanding map with
`pending_remote_commands_ = 0`, in which the hash of each dispatched command is
not already a key of the outstanding map and each completion names an edge id
that was dispatched and has not yet completed: `pending_remote_commands_` is at
least 0 and at most the size of the outstanding map, which is at most the
number of calls; so, the size fitting an `int`, the minimum that
`RemoteCanRunMore` takes equals `pending_remote_commands_`, and
`RemoteCanRunMore()` holds exactly when the registry is not empty and
`pending_remote_commands_` is at most `number_of_slave_processors_`. -/
theorem C16_pending_at_most_outstanding (env : Env) (calls : List RemoteCall)
    (s0 s : MasterMainRunner) (in_flight : List Nat)
    (hmap : s0.outstanding_edges_ = []) (hpending : s0.pending_remote_commands_ = 0)
    (h : remote_run env calls s0 [] = Except.ok (s, in_flight)) :
    0 ≤ s.pending_remote_commands_ ∧
    s.pending_remote_commands_ ≤ (OrdMap.size s.outstanding_edges_ : Int) ∧
    OrdMap.size s.outstanding_edges_ ≤ calls.length ∧
    (OrdMap.size s.outstanding_edges_ < 2147483648 →
      min (static_cast_int (OrdMap.size s.outstanding_edges_)) s.pending_remote_commands_ =
        s.pending_remote_commands_ ∧
      (RemoteCanRunMore s = true ↔
        (OrdMap.empty s.slave_info_id_map_ = false ∧
          s.pending_remote_commands_ ≤ s.number_of_slave_processors_))) := by
  have hinv0 : RemoteInv s0 [] :=
    ⟨List.nodup_nil, fun id hid => absurd hid (List.not_mem_nil _), by simp [hpending]⟩
  obtain ⟨hinv, hsize⟩ := remote_run_invariant env calls s0 s [] in_flight hinv0 h
  obtain ⟨h0, hle⟩ := RemoteInv_pending_le s in_flight hinv
  refine ⟨h0, hle, by simpa [hmap, OrdMap.size] using hsize, ?_⟩
  intro hfit
  have hcast := static_cast_int_of_lt _ hfit
  have hmin : min (static_cast_int (OrdMap.size s.outstanding_edges_))
      s.pending_remote_commands_ = s.pending_remote_commands_ := by
    rw [hcast]
    exact min_eq_right hle
  refine ⟨hmin, ?_⟩
  unfold RemoteCanRunMore
  cases hreg : OrdMap.empty s.slave_info_id_map_ with
  | true => simp
  | false =>
    simp only [Bool.false_eq_true, if_false, decide_eq_true_eq, true_and]
    rw [hmin]

/-- C16 (instance): from `sample_idle`, three dispatches and two completions
leave one command pending and two entries in the outstanding map. -/
theorem C16_pending_at_most_outstanding_witness :
    ∃ s in_flight,
      remote_run sample_env sample_remote_calls sample_idle [] = Except.ok (s, in_flight) ∧
      s.pending_remote_commands_ = 1 ∧ OrdMap.size s.outstanding_edges_ = 2 ∧
      RemoteCanRunMore s = true ∧
      (0 ≤ s.pending_remote_commands_ ∧
       s.pending_remote_commands_ ≤ (OrdMap.size s.outstanding_edges_ : Int) ∧
       OrdMap.size s.outstanding_edges_ ≤ sample_remote_calls.length ∧
       (OrdMap.size s.outstanding_edges_ < 2147483648 →
        min (static_cast_int (OrdMap.size s.outstanding_edges_))
            s.pending_remote_commands_ = s.pending_remote_commands_ ∧
        (RemoteCanRunMore s = true ↔
          (OrdMap.empty s.slave_info_id_map_ = false ∧
            s.pending_remote_commands_ ≤ s.number_of_slave_processors_)))) :=
  ⟨_, _, rfl, rfl, rfl, rfl,
    C16_pending_at_most_outstanding sample_env sample_remote_calls sample_idle _ _ rfl rfl
      rfl⟩

end master
